import Mathlib

/-!
# Verification of the HTML-to-mrkdwn converter

Shallow embedding of `src/utils/htmlToMrkdwn.ts` (functions `htmlToMrkdwn`
and `decodeHtmlEntities`).  A JavaScript string is modelled as a list of
UTF-16 code units (`List Nat`, each element `< 2^16`; `String.fromCharCode`
applies ToUint16, i.e. `% 65536`, and may produce lone surrogates, which is
why `List Char` would not be faithful).  Each `String.prototype.replace`
with a global regex is modelled as a left-to-right scan (`replaceScan`)
that at every position tries the regex's deterministic backtracking
semantics (`Matcher`), emits the replacement and resumes after the match,
exactly as a JS global replace does.  `parseInt` on the digit strings
captured by `/&#(\d+);/` and `/&#x([0-9a-fA-F]+);/` is modelled exactly
(the captures are nonempty all-digit strings, on which `parseInt` returns
the exact integer for every value below 2^53; all reachable captures in
the claims are far below that).
-/

/-- A JavaScript string: its sequence of UTF-16 code units. -/
abbrev JStr := List Nat

/-- Code units of a Lean string literal (all literals used are in the BMP,
where code point and code unit agree). -/
def uc (s : String) : JStr := s.data.map Char.toNat

/-- JavaScript whitespace (`\s` in a regex, and the set trimmed by
`String.prototype.trim`): tab, LF, VT, FF, CR, space, NBSP, and the
Unicode space separators, line/paragraph separators and BOM. -/
def jsWs (c : Nat) : Bool :=
  c == 9 || c == 10 || c == 11 || c == 12 || c == 13 || c == 32 ||
  c == 160 || c == 5760 || (Nat.ble 8192 c && Nat.ble c 8202) ||
  c == 8232 || c == 8233 || c == 8239 || c == 8287 || c == 12288 || c == 65279

/-- `\d` in a JS regex: ASCII decimal digit. -/
def isDigit (c : Nat) : Bool := Nat.ble 48 c && Nat.ble c 57

/-- `[0-9a-fA-F]`: ASCII hexadecimal digit. -/
def isHexDigit (c : Nat) : Bool :=
  isDigit c || (Nat.ble 97 c && Nat.ble c 102) || (Nat.ble 65 c && Nat.ble c 70)

/-- Case-insensitive match of one regex pattern unit `p` (always given in
lowercase) against an input code unit `c`, as the `i` flag canonicalizes:
for an ASCII lowercase letter the uppercase variant also matches; for every
other pattern unit only equality matches (no non-ASCII unit canonicalizes
onto an ASCII letter without the `u` flag). -/
def ciEq (p c : Nat) : Bool :=
  c == p || (Nat.ble 97 p && Nat.ble p 122 && c + 32 == p)

/-- Exact literal prefix match: `litPref pat s = some rest` iff `s = pat ++ rest`. -/
def litPref : JStr → JStr → Option JStr
  | [], s => some s
  | _ :: _, [] => none
  | p :: ps, c :: cs => if c == p then litPref ps cs else none

/-- Case-insensitive literal prefix match (pattern in lowercase). -/
def ciPref : JStr → JStr → Option JStr
  | [], s => some s
  | _ :: _, [] => none
  | p :: ps, c :: cs => if ciEq p c then ciPref ps cs else none

/-- Lazy search (`([\s\S]*?)` followed by a closing pattern): scan forward
for the first position where `test` recognises the closing pattern
(returning its length); yield the content before it and the total number of
units consumed (content plus closing pattern).  This is exactly how a lazy
quantifier followed by a literal matches: the shortest content wins. -/
def findSub (test : JStr → Option Nat) : JStr → Option (JStr × Nat)
  | [] => none
  | c :: rest =>
    match test (c :: rest) with
    | some k => some ([], k)
    | none =>
      match findSub test rest with
      | some (pre, n) => some (c :: pre, n + 1)
      | none => none

/-- Exact mathematical value of a decimal digit string (the integer denoted
by an all-digit capture of `/&#(\d+);/`).  `parseInt(s,10)` returns this
value converted to an IEEE-754 binary64 number, i.e. `toFloat64 (decVal s)`:
exact below `2^53`, rounded above it. -/
def decVal (ds : JStr) : Nat := ds.foldl (fun a c => a * 10 + (c - 48)) 0

/-- Value of one hexadecimal digit unit. -/
def hexDigitVal (c : Nat) : Nat :=
  if Nat.ble c 57 then c - 48 else if Nat.ble 97 c then c - 87 else c - 55

/-- Exact mathematical value of a hexadecimal digit string; `parseInt(s,16)`
returns its binary64 rounding `toFloat64 (hexVal s)`. -/
def hexVal (ds : JStr) : Nat := ds.foldl (fun a c => a * 16 + hexDigitVal c) 0

/-- Number of halvings that bring `n` below `2^53` (fuelled: the recursion
depth is at most `log2 n < n`, so `n` itself is always enough fuel).  For
`n ≥ 2^53` this is the unique `k` with `2^(52+k) ≤ n < 2^(53+k)`: the gap
between consecutive binary64 values in the range containing `n` (its ulp)
is `2^k`. -/
def ulpExpAux : Nat → Nat → Nat
  | 0, _ => 0
  | f + 1, n => if n < 2 ^ 53 then 0 else ulpExpAux f (n / 2) + 1

def ulpExp (n : Nat) : Nat := ulpExpAux n n

/-- The IEEE-754 binary64 (JS number) value of the integer `n`, as a
natural number: exact below `2^53`; otherwise `n` rounded to the nearest
multiple of its ulp `2^k`, ties to the multiple with even quotient
(round-to-nearest, ties-to-even on the 53-bit significand `q ∈ [2^52,
2^53)`).  A mathematical result `≥ 2^1024` overflows to `Infinity` in JS,
but every such value here is a multiple of `2^971` and
`ToUint16(Infinity) = 0`, so the composition with `% 2^16` used below
agrees with the program there as well. -/
def toFloat64 (n : Nat) : Nat :=
  if n < 2 ^ 53 then n
  else
    let u := 2 ^ ulpExp n
    let q := n / u
    let r := n % u
    if 2 * r < u then q * u
    else if u < 2 * r then (q + 1) * u
    else if q % 2 = 0 then q * u
    else (q + 1) * u

/-- `String.prototype.trim`: drop JS whitespace from both ends. -/
def jsTrim (s : JStr) : JStr :=
  ((s.dropWhile jsWs).reverse.dropWhile jsWs).reverse

/-- One attempted regex match at a fixed position: on success, the
replacement text and the number of input units the match consumed
(always at least 1 for every pattern in this file). -/
abbrev Matcher := JStr → Option (JStr × Nat)

/-- Fuelled global-replace scan; fuel at least the input length makes the
fuel irrelevant (`scanAux_eq_of_le`). -/
def scanAux (m : Matcher) : Nat → JStr → JStr
  | 0, s => s
  | _ + 1, [] => []
  | f + 1, c :: rest =>
    match m (c :: rest) with
    | some (rep, n) => rep ++ scanAux m f (List.drop (n - 1) rest)
    | none => c :: scanAux m f rest

/-- `String.prototype.replace` with a global regex: scan left to right,
replace each leftmost non-overlapping match, resume after it. -/
def replaceScan (m : Matcher) (s : JStr) : JStr := scanAux m s.length s

/-- Guard shared by every matcher: each pattern begins with one fixed
required code unit (`<`, `&`, `\x00` or `\n`); the core sees the rest. -/
def headGuard (t : Nat) (core : JStr → Option (JStr × Nat)) : Matcher :=
  fun s =>
    match s with
    | [] => none
    | c :: rest =>
      if c == t then
        match core rest with
        | some (rep, n) => some (rep, n + 1)
        | none => none
      else none

/-- Fixed-text global replace (used for the sentinel restores, and for the
`split(entity).join(replacement)` passes, which replace the same
non-overlapping left-to-right occurrences). -/
def matchLit (pat rep : JStr) : Matcher := fun s =>
  match litPref pat s with
  | some _ => some (rep, pat.length)
  | none => none

/-- `/<br\s*\/?>/gi` (after the leading `<`): `br`, optional whitespace,
optional `/`, then `>`. -/
def brCore : JStr → Option (JStr × Nat)
  | c1 :: c2 :: rest =>
    if ciEq 98 c1 && ciEq 114 c2 then
      let w := rest.takeWhile jsWs
      match rest.dropWhile jsWs with
      | c3 :: r3 =>
        if c3 == 47 then
          match r3 with
          | c4 :: _ => if c4 == 62 then some ([10], 2 + w.length + 2) else none
          | [] => none
        else if c3 == 62 then some ([10], 2 + w.length + 1) else none
      | [] => none
    else none
  | _ => none

def matchBr : Matcher := headGuard 60 brCore

/-- `/<\/p>\s*<p[^>]*>/gi` (after the leading `<`). -/
def ppCore : JStr → Option (JStr × Nat)
  | c0 :: c1 :: c2 :: rest =>
    if c0 == 47 && ciEq 112 c1 && c2 == 62 then
      let w := rest.takeWhile jsWs
      match rest.dropWhile jsWs with
      | c3 :: c4 :: r3 =>
        if c3 == 60 && ciEq 112 c4 then
          let attrs := r3.takeWhile (fun c => c != 62)
          match r3.dropWhile (fun c => c != 62) with
          | c5 :: _ => if c5 == 62 then some ([10, 10], 3 + w.length + 2 + attrs.length + 1) else none
          | [] => none
        else none
      | _ => none
    else none
  | _ => none

def matchPPair : Matcher := headGuard 60 ppCore

/-- `/<p[^>]*>/gi` (after the leading `<`). -/
def pOpenCore : JStr → Option (JStr × Nat)
  | c1 :: rest =>
    if ciEq 112 c1 then
      let attrs := rest.takeWhile (fun c => c != 62)
      match rest.dropWhile (fun c => c != 62) with
      | c2 :: _ => if c2 == 62 then some ([], 1 + attrs.length + 1) else none
      | [] => none
    else none
  | _ => none

def matchPOpen : Matcher := headGuard 60 pOpenCore

/-- `/<\/p>/gi` (after the leading `<`). -/
def pCloseCore : JStr → Option (JStr × Nat)
  | c0 :: c1 :: c2 :: _ =>
    if c0 == 47 && ciEq 112 c1 && c2 == 62 then some ([10, 10], 3) else none
  | _ => none

def matchPClose : Matcher := headGuard 60 pCloseCore

/-- The sentinel `\x00LINK_START` (code unit 0 then `LINK_START`). -/
def linkStartSeq : JStr := uc ("\x00LINK_START")

/-- The sentinel `\x00LINK_END`. -/
def linkEndSeq : JStr := uc ("\x00LINK_END")

/-- The literal `href="` of the anchor regex: `h r e f = "`. -/
def hrefPat : JStr := [104, 114, 101, 102, 61, 34]

/-- Closing-anchor test for the lazy label capture: `</a>` case-insensitively. -/
def closeA (s : JStr) : Option Nat :=
  match ciPref [60, 47, 97, 62] s with
  | some _ => some 4
  | none => none

/-- One candidate split of `\s+[^>]*` before `href="` inside the anchor tag:
`j` units of `r1` are consumed before the literal, then the URL is the
greedy `([^"]*)` up to the next `"`, then greedy `[^>]*` up to `>`, then
the lazy label up to the first `</a>`.  Returns the replacement's capture
data and the units of `<a`'s tail (`a` + `r1`-part) consumed. -/
def anchorAt (r1 : JStr) (j : Nat) : Option (JStr × Nat) :=
  match ciPref hrefPat (r1.drop j) with
  | some s3 =>
    let url := s3.takeWhile (fun c => c != 34)
    match s3.dropWhile (fun c => c != 34) with
    | c4 :: s5 =>
      if c4 == 34 then
        let attrs2 := s5.takeWhile (fun c => c != 62)
        match s5.dropWhile (fun c => c != 62) with
        | c5 :: s7 =>
          if c5 == 62 then
            match findSub closeA s7 with
            | some (label, n) =>
              some (linkStartSeq ++ url ++ [124] ++ label ++ linkEndSeq,
                    1 + j + 6 + url.length + 1 + attrs2.length + 1 + n)
            | none => none
          else none
        | [] => none
      else none
    | [] => none
  | none => none

/-- Greedy backtracking of `\s+[^>]*` before `href="`: the rightmost
feasible start of the literal wins, so candidates are tried from `j`
downwards; `j = 0` is impossible because `\s+` consumes at least one unit. -/
def anchorTry (r1 : JStr) : Nat → Option (JStr × Nat)
  | 0 => none
  | j + 1 =>
    match anchorAt r1 (j + 1) with
    | some res => some res
    | none => anchorTry r1 j

/-- `/<a\s+[^>]*href="([^"]*)"[^>]*>([\s\S]*?)<\/a>/gi` (after the leading
`<`): `a`, at least one whitespace unit, then `[^>]*` (which cannot cross a
`>`; together with `\s+` this bounds the candidate positions of `href="`
to the maximal `>`-free run), and the continuation in `anchorAt`. -/
def aCore : JStr → Option (JStr × Nat)
  | c0 :: r1 =>
    if ciEq 97 c0 then
      match r1 with
      | w0 :: _ =>
        if jsWs w0 then
          anchorTry r1 (r1.takeWhile (fun c => c != 62)).length
        else none
      | [] => none
    else none
  | [] => none

def matchAnchor : Matcher := headGuard 60 aCore

/-- `(?:\s[^>]*)?>` after an inline keyword: either `>` directly, or one
whitespace unit, a greedy `>`-free run, then `>`. -/
def inlineTail (delim kwLen slash : Nat) (rest : JStr) : Option (JStr × Nat) :=
  match rest with
  | w :: r2 =>
    if w == 62 then some ([delim], slash + kwLen + 1)
    else if jsWs w then
      let attrs := r2.takeWhile (fun c => c != 62)
      match r2.dropWhile (fun c => c != 62) with
      | c3 :: _ => if c3 == 62 then some ([delim], slash + kwLen + 1 + attrs.length + 1) else none
      | [] => none
    else none
  | [] => none

/-- Regex alternation over the tag keywords, tried in source order; a
keyword whose continuation fails falls through to the next alternative
(e.g. `s` then `strike` on `<strike>`). -/
def inlineKw (delim slash : Nat) (rest : JStr) : List JStr → Option (JStr × Nat)
  | [] => none
  | kw :: kws =>
    match ciPref kw rest with
    | some r2 =>
      match inlineTail delim kw.length slash r2 with
      | some res => some res
      | none => inlineKw delim slash rest kws
    | none => inlineKw delim slash rest kws

/-- `/<\/?(?:kw|...)(?:\s[^>]*)?>/gi` (after the leading `<`): optional `/`
(taken when present: no keyword begins with `/`), then the alternation. -/
def inlineCore (kws : List JStr) (delim : Nat) : JStr → Option (JStr × Nat)
  | c :: rest =>
    if c == 47 then inlineKw delim 1 rest kws
    else inlineKw delim 0 (c :: rest) kws
  | [] => inlineKw delim 0 [] kws

/-- Bold: `<b>`, `</b>`, `<strong>`, `</strong>` (attributes allowed) to `*`;
the keywords are `b` and `strong` in source alternation order. -/
def matchBold : Matcher :=
  headGuard 60 (inlineCore [[98], [115, 116, 114, 111, 110, 103]] 42)

/-- Italic: `<i>`, `</i>`, `<em>`, `</em>` to `_` (keywords `i`, `em`). -/
def matchItalic : Matcher := headGuard 60 (inlineCore [[105], [101, 109]] 95)

/-- Strikethrough: `<s>`, `<strike>`, `<del>` and closers to `~`
(keywords `s`, `strike`, `del`). -/
def matchStrike : Matcher :=
  headGuard 60 (inlineCore [[115], [115, 116, 114, 105, 107, 101], [100, 101, 108]] 126)

/-- `<ul>`, `<ol>` and closers to a newline (keywords `ul`, `ol`). -/
def matchUlOl : Matcher := headGuard 60 (inlineCore [[117, 108], [111, 108]] 10)

/-- Closing-`</li>` test for the lazy list-item capture. -/
def closeLi (s : JStr) : Option Nat :=
  match ciPref [60, 47, 108, 105, 62] s with
  | some _ => some 5
  | none => none

/-- `/<li[^>]*>([\s\S]*?)<\/li>/gi` (after the leading `<`); the callback
produces a newline, a bullet (U+2022), a space and the trimmed content. -/
def liCore : JStr → Option (JStr × Nat)
  | c1 :: c2 :: rest =>
    if ciEq 108 c1 && ciEq 105 c2 then
      let attrs := rest.takeWhile (fun c => c != 62)
      match rest.dropWhile (fun c => c != 62) with
      | c3 :: s2 =>
        if c3 == 62 then
          match findSub closeLi s2 with
          | some (content, n) =>
            some ([10, 8226, 32] ++ jsTrim content, 2 + attrs.length + 1 + n)
          | none => none
        else none
      | [] => none
    else none
  | _ => none

def matchLi : Matcher := headGuard 60 liCore

/-- Closing `</h[1-6]>` test for the lazy heading capture. -/
def closeH (s : JStr) : Option Nat :=
  match s with
  | c0 :: c1 :: c :: d :: c4 :: _ =>
    if c0 == 60 && c1 == 47 && ciEq 104 c && Nat.ble 49 d && Nat.ble d 54 && c4 == 62 then
      some 5
    else none
  | _ => none

/-- `/<h[1-6][^>]*>([\s\S]*?)<\/h[1-6]>/gi` (after the leading `<`); the
callback produces newline, `*`, trimmed content, `*`, newline. -/
def hCore : JStr → Option (JStr × Nat)
  | c1 :: d :: rest =>
    if ciEq 104 c1 && Nat.ble 49 d && Nat.ble d 54 then
      let attrs := rest.takeWhile (fun c => c != 62)
      match rest.dropWhile (fun c => c != 62) with
      | c3 :: s2 =>
        if c3 == 62 then
          match findSub closeH s2 with
          | some (content, n) =>
            some ([10, 42] ++ jsTrim content ++ [42, 10], 2 + attrs.length + 1 + n)
          | none => none
        else none
      | [] => none
    else none
  | _ => none

def matchH : Matcher := headGuard 60 hCore

/-- `/<[^>]+>/g` (after the leading `<`): at least one `>`-free unit, then `>`. -/
def stripCore (s : JStr) : Option (JStr × Nat) :=
  if (s.takeWhile (fun c => c != 62)).isEmpty then none
  else
    match s.dropWhile (fun c => c != 62) with
    | c :: _ =>
      if c == 62 then some ([], (s.takeWhile (fun c => c != 62)).length + 1) else none
    | [] => none

def matchStrip : Matcher := headGuard 60 stripCore

/-- The named-entity table, in the source's insertion order (`Object.entries`
iterates string keys in insertion order). -/
def entityTable : List (JStr × JStr) :=
  [(uc ("&amp;"), uc ("&")), (uc ("&lt;"), uc ("<")), (uc ("&gt;"), uc (">")),
   (uc ("&nbsp;"), uc (" ")), (uc ("&quot;"), uc ("\"")), (uc ("&#39;"), uc ("'")),
   (uc ("&apos;"), uc ("'")), (uc ("&ndash;"), uc ("–")), (uc ("&mdash;"), uc ("—")),
   (uc ("&hellip;"), uc ("…")), (uc ("&laquo;"), uc ("«")), (uc ("&raquo;"), uc ("»")),
   (uc ("&bull;"), uc ("•")), (uc ("&copy;"), uc ("©")), (uc ("&reg;"), uc ("®")),
   (uc ("&trade;"), uc ("™"))]

/-- The sequential `split(entity).join(replacement)` passes. -/
def decodeNamed (s : JStr) : JStr :=
  entityTable.foldl (fun acc pr => replaceScan (matchLit pr.1 pr.2) acc) s

/-- `/&#(\d+);/g` raw capture (after the leading `&`): `#`, a nonempty
maximal digit run, `;`.  Returns the digit capture. -/
def decEntCore : JStr → Option (JStr × Nat)
  | c0 :: rest =>
    if c0 == 35 then
      if (rest.takeWhile isDigit).isEmpty then none
      else
        match rest.dropWhile isDigit with
        | c :: _ =>
          if c == 59 then
            some (rest.takeWhile isDigit, 1 + (rest.takeWhile isDigit).length + 1)
          else none
        | [] => none
    else none
  | [] => none

def matchDecEntRaw : Matcher := headGuard 38 decEntCore

/-- `/&#x([0-9a-fA-F]+);/g` raw capture (no `i` flag: the `x` is exact). -/
def hexEntCore : JStr → Option (JStr × Nat)
  | c0 :: c1 :: rest =>
    if c0 == 35 && c1 == 120 then
      if (rest.takeWhile isHexDigit).isEmpty then none
      else
        match rest.dropWhile isHexDigit with
        | c :: _ =>
          if c == 59 then
            some (rest.takeWhile isHexDigit, 2 + (rest.takeWhile isHexDigit).length + 1)
          else none
        | [] => none
    else none
  | _ => none

def matchHexEntRaw : Matcher := headGuard 38 hexEntCore

/-- `String.fromCharCode(parseInt(dec, 10))`: `parseInt` yields the
binary64 value of the digits, `fromCharCode` takes ToUint16 of it — one
UTF-16 code unit. -/
def matchDecEnt : Matcher := fun s =>
  match matchDecEntRaw s with
  | some (ds, n) => some ([toFloat64 (decVal ds) % 65536], n)
  | none => none

/-- `String.fromCharCode(parseInt(hex, 16))`. -/
def matchHexEnt : Matcher := fun s =>
  match matchHexEntRaw s with
  | some (ds, n) => some ([toFloat64 (hexVal ds) % 65536], n)
  | none => none

/-- `decodeHtmlEntities`: the named passes, then decimal, then hexadecimal
numeric entities. -/
def decodeHtmlEntities (s : JStr) : JStr :=
  replaceScan matchHexEnt (replaceScan matchDecEnt (decodeNamed s))

/-- `/\n{3,}/g` (after the leading `\n`): two more newlines then the
greedy remainder of the run; replaced by exactly two newlines. -/
def nlCore : JStr → Option (JStr × Nat)
  | c1 :: c2 :: r2 =>
    if c1 == 10 && c2 == 10 then
      some ([10, 10], 2 + (r2.takeWhile (fun c => c == 10)).length)
    else none
  | _ => none

def matchNl3 : Matcher := headGuard 10 nlCore

/-- `htmlToMrkdwn` from `src/utils/htmlToMrkdwn.ts`: the guard for a falsy
(empty) argument, then the fixed pipeline of replaces in source order. -/
def htmlToMrkdwn (html : JStr) : JStr :=
  if html = [] then html
  else
    let t1 := replaceScan matchBr html
    let t2 := replaceScan matchPPair t1
    let t3 := replaceScan matchPOpen t2
    let t4 := replaceScan matchPClose t3
    let t5 := replaceScan matchAnchor t4
    let t6 := replaceScan matchBold t5
    let t7 := replaceScan matchItalic t6
    let t8 := replaceScan matchStrike t7
    let t9 := replaceScan matchLi t8
    let t10 := replaceScan matchUlOl t9
    let t11 := replaceScan matchH t10
    let t12 := replaceScan matchStrip t11
    let t13 := replaceScan (matchLit linkStartSeq [60]) t12
    let t14 := replaceScan (matchLit linkEndSeq [62]) t13
    let t15 := decodeHtmlEntities t14
    let t16 := replaceScan matchNl3 t15
    jsTrim t16

/-- `parseInt(s, 10)` on a capture of `(\d+)`: `none` models `NaN` (an empty
capture, which the regex rules out); otherwise the binary64 value of the
digits. -/
def parseDec (ds : JStr) : Option Nat :=
  if ds.isEmpty then none else some (toFloat64 (decVal ds))

/-- `parseInt(s, 16)` on a capture of `([0-9a-fA-F]+)`. -/
def parseHex (ds : JStr) : Option Nat :=
  if ds.isEmpty then none else some (toFloat64 (hexVal ds))

/-- Error-instrumented numeric-entity scan: the one place in the source
where a failure value (`NaN` from `parseInt`) could arise is made an
explicit `Except.error`. -/
def scanNumE (raw : Matcher) (conv : JStr → Option Nat) :
    Nat → JStr → Except String JStr
  | 0, s => Except.ok s
  | _ + 1, [] => Except.ok []
  | f + 1, c :: rest =>
    match raw (c :: rest) with
    | some (ds, n) =>
      match conv ds with
      | none => Except.error ("NaN")
      | some v =>
        Except.map (fun t => (v % 65536) :: t) (scanNumE raw conv f (List.drop (n - 1) rest))
    | none => Except.map (fun t => c :: t) (scanNumE raw conv f rest)

/-- Error-instrumented `decodeHtmlEntities`. -/
def decodeHtmlEntitiesE (s : JStr) : Except String JStr :=
  match scanNumE matchDecEntRaw parseDec (decodeNamed s).length (decodeNamed s) with
  | Except.error e => Except.error e
  | Except.ok b =>
    match scanNumE matchHexEntRaw parseHex b.length b with
    | Except.error e => Except.error e
    | Except.ok c => Except.ok c

/-- Error-instrumented `htmlToMrkdwn`: identical pipeline, with the
potentially-failing entity decoding threaded through `Except`. -/
def htmlToMrkdwnE (html : JStr) : Except String JStr :=
  if html = [] then Except.ok html
  else
    let t1 := replaceScan matchBr html
    let t2 := replaceScan matchPPair t1
    let t3 := replaceScan matchPOpen t2
    let t4 := replaceScan matchPClose t3
    let t5 := replaceScan matchAnchor t4
    let t6 := replaceScan matchBold t5
    let t7 := replaceScan matchItalic t6
    let t8 := replaceScan matchStrike t7
    let t9 := replaceScan matchLi t8
    let t10 := replaceScan matchUlOl t9
    let t11 := replaceScan matchH t10
    let t12 := replaceScan matchStrip t11
    let t13 := replaceScan (matchLit linkStartSeq [60]) t12
    let t14 := replaceScan (matchLit linkEndSeq [62]) t13
    match decodeHtmlEntitiesE t14 with
    | Except.error e => Except.error e
    | Except.ok t15 => Except.ok (jsTrim (replaceScan matchNl3 t15))

/-- `true` iff the string contains three consecutive newlines (a match of
`/\n{3,}/`). -/
def hasTriple : JStr → Bool
  | c1 :: c2 :: c3 :: rest =>
    (c1 == 10 && c2 == 10 && c3 == 10) || hasTriple (c2 :: c3 :: rest)
  | _ => false

/-- `true` iff the string is empty or starts with a non-whitespace unit. -/
def noWsHead : JStr → Bool
  | [] => true
  | c :: _ => !jsWs c

/-- `true` iff neither end of the string is JS whitespace. -/
def noEdgeWs (s : JStr) : Bool := noWsHead s && noWsHead s.reverse

/-! ## Scanner infrastructure -/

theorem scanAux_eq_of_le (m : Matcher) :
    ∀ f s, List.length s ≤ f → scanAux m f s = scanAux m (List.length s) s := by
  intro f
  induction f using Nat.strong_induction_on with
  | _ f ih =>
    intro s hs
    cases f with
    | zero =>
      have hnil : s = [] := by
        cases s with
        | nil => rfl
        | cons c r => simp at hs
      subst hnil
      rfl
    | succ f =>
      cases s with
      | nil => rfl
      | cons c rest =>
        have hr : rest.length ≤ f := by simpa [Nat.succ_le_succ_iff] using hs
        cases hm : m (c :: rest) with
        | none =>
          simp only [scanAux, List.length_cons, hm]
          rw [ih f (Nat.lt_succ_self f) rest hr,
              ih rest.length (Nat.lt_succ_of_le hr) rest (Nat.le_refl _)]
        | some p =>
          obtain ⟨rep, n⟩ := p
          have hd : (List.drop (n - 1) rest).length ≤ rest.length := by
            simp [List.length_drop]
          simp only [scanAux, List.length_cons, hm]
          rw [ih f (Nat.lt_succ_self f) _ (Nat.le_trans hd hr),
              ih rest.length (Nat.lt_succ_of_le hr) _ hd]

theorem replaceScan_nil (m : Matcher) : replaceScan m [] = [] := rfl

theorem replaceScan_cons_none (m : Matcher) (c : Nat) (r : JStr)
    (h : m (c :: r) = none) : replaceScan m (c :: r) = c :: replaceScan m r := by
  show scanAux m (c :: r).length (c :: r) = _
  simp only [List.length_cons, scanAux, h]
  rfl

theorem replaceScan_cons_some (m : Matcher) (c : Nat) (r rep : JStr) (n : Nat)
    (h : m (c :: r) = some (rep, n)) :
    replaceScan m (c :: r) = rep ++ replaceScan m (List.drop (n - 1) r) := by
  show scanAux m (c :: r).length (c :: r) = _
  simp only [List.length_cons, scanAux, h]
  rw [scanAux_eq_of_le m r.length _ (by simp [List.length_drop])]
  rfl

/-- The matcher can only fire on a position whose first unit is `t`. -/
def HeadTrig (m : Matcher) (t : Nat) : Prop := ∀ c r, c ≠ t → m (c :: r) = none

theorem headGuard_trig (t : Nat) (core : JStr → Option (JStr × Nat)) :
    HeadTrig (headGuard t core) t := by
  intro c r hc
  simp [headGuard, hc]

theorem matchLit_trig (t : Nat) (ps rep : JStr) : HeadTrig (matchLit (t :: ps) rep) t := by
  intro c r hc
  simp [matchLit, litPref, hc]

theorem scan_skip (m : Matcher) (t : Nat) (ht : HeadTrig m t) :
    ∀ a b, t ∉ a → replaceScan m (a ++ b) = a ++ replaceScan m b := by
  intro a
  induction a with
  | nil => simp
  | cons x a ih =>
    intro b hx
    have hxt : x ≠ t := fun h => hx (by simp [h])
    rw [List.cons_append, replaceScan_cons_none m x (a ++ b) (ht x _ hxt),
        ih b (fun h => hx (List.mem_cons_of_mem _ h))]
    rfl

theorem scan_id (m : Matcher) (t : Nat) (ht : HeadTrig m t) (s : JStr)
    (h : t ∉ s) : replaceScan m s = s := by
  have hskip := scan_skip m t ht s [] h
  rw [replaceScan_nil m, List.append_nil] at hskip
  exact hskip

theorem scan_id_of_none (m : Matcher) :
    ∀ s, (∀ c r, (c :: r) <:+ s → m (c :: r) = none) → replaceScan m s = s := by
  intro s
  induction s with
  | nil => intro _; rfl
  | cons c rest ih =>
    intro h
    rw [replaceScan_cons_none m c rest (h c rest (List.suffix_refl _))]
    rw [ih (fun c2 r2 hsuf => h c2 r2 (hsuf.trans (List.suffix_cons c rest)))]

theorem litPref_some (pat : JStr) :
    ∀ s r, litPref pat s = some r → s = pat ++ r := by
  induction pat with
  | nil =>
    intro s r h
    simpa [litPref] using h
  | cons p ps ih =>
    intro s r h
    cases s with
    | nil => simp [litPref] at h
    | cons c cs =>
      by_cases hc : c = p
      · subst hc
        simp only [litPref, beq_self_eq_true, if_true] at h
        simpa using ih cs r h
      · simp [litPref, hc] at h

theorem litPref_append (pat r : JStr) : litPref pat (pat ++ r) = some r := by
  induction pat with
  | nil => rfl
  | cons p ps ih => simp [litPref, ih]

theorem scan_lit_id (pat rep s : JStr)
    (h : ¬ pat <:+: s) : replaceScan (matchLit pat rep) s = s := by
  apply scan_id_of_none
  intro c r hsuf
  cases hm : matchLit pat rep (c :: r) with
  | none => rfl
  | some p =>
    exfalso
    apply h
    unfold matchLit at hm
    cases hl : litPref pat (c :: r) with
    | none => rw [hl] at hm; exact absurd hm (by simp)
    | some rest =>
      have hpre : pat <+: c :: r := ⟨rest, (litPref_some pat _ _ hl).symm⟩
      exact hpre.isInfix.trans hsuf.isInfix

/-! ## Trim and newline-collapse lemmas -/

theorem dropWhile_head_not (p : Nat → Bool) :
    ∀ (s : JStr) c r, s.dropWhile p = c :: r → p c = false := by
  intro s
  induction s with
  | nil =>
    intro c r h
    simp [List.dropWhile] at h
  | cons x xs ih =>
    intro c r h
    rw [List.dropWhile_cons] at h
    by_cases hx : p x
    · rw [if_pos hx] at h
      exact ih c r h
    · rw [if_neg hx] at h
      cases h
      simpa using hx

theorem noWsHead_dropWhile (s : JStr) : noWsHead (s.dropWhile jsWs) = true := by
  cases hd : s.dropWhile jsWs with
  | nil => rfl
  | cons c r => simp [noWsHead, dropWhile_head_not jsWs s c r hd]

theorem jsTrim_pref (s : JStr) : jsTrim s <+: s.dropWhile jsWs := by
  have h := List.dropWhile_suffix (l := (s.dropWhile jsWs).reverse) jsWs
  have h2 := h
  rw [show ((s.dropWhile jsWs).reverse.dropWhile jsWs) =
        ((s.dropWhile jsWs).reverse.dropWhile jsWs).reverse.reverse by
      rw [List.reverse_reverse]] at h2
  exact List.reverse_suffix.mp h2

theorem noWsHead_of_prefix (t s : JStr) (h : t <+: s) (hs : noWsHead s = true) :
    noWsHead t = true := by
  cases t with
  | nil => rfl
  | cons c r =>
    obtain ⟨u, hu⟩ := h
    rw [← hu] at hs
    simpa [noWsHead] using hs

theorem jsTrim_reverse (s : JStr) :
    (jsTrim s).reverse = (s.dropWhile jsWs).reverse.dropWhile jsWs := by
  unfold jsTrim
  rw [List.reverse_reverse]

theorem noEdgeWs_jsTrim (s : JStr) : noEdgeWs (jsTrim s) = true := by
  unfold noEdgeWs
  rw [Bool.and_eq_true]
  constructor
  · exact noWsHead_of_prefix _ _ (jsTrim_pref s) (noWsHead_dropWhile s)
  · rw [jsTrim_reverse]
    exact noWsHead_dropWhile _

theorem jsTrim_id (s : JStr) (h : noEdgeWs s = true) : jsTrim s = s := by
  unfold noEdgeWs at h
  rw [Bool.and_eq_true] at h
  obtain ⟨h1, h2⟩ := h
  unfold jsTrim
  have hd1 : s.dropWhile jsWs = s := by
    cases s with
    | nil => rfl
    | cons c r =>
      simp only [noWsHead, Bool.not_eq_true'] at h1
      rw [List.dropWhile_cons, if_neg (by simp [h1])]
  rw [hd1]
  have hd2 : s.reverse.dropWhile jsWs = s.reverse := by
    cases hr : s.reverse with
    | nil => simp
    | cons c r =>
      rw [hr] at h2
      simp only [noWsHead, Bool.not_eq_true'] at h2
      rw [List.dropWhile_cons, if_neg (by simp [h2])]
  rw [hd2, List.reverse_reverse]

theorem hasTriple_cons3 (c1 c2 c3 : Nat) (r : JStr) :
    hasTriple (c1 :: c2 :: c3 :: r) =
      ((c1 == 10 && c2 == 10 && c3 == 10) || hasTriple (c2 :: c3 :: r)) := rfl

theorem hasTriple_cons_ne (c : Nat) (t : JStr) (hc : c ≠ 10) :
    hasTriple (c :: t) = hasTriple t := by
  have hb : (c == 10) = false := by simpa using hc
  cases t with
  | nil => rfl
  | cons x r =>
    cases r with
    | nil => rfl
    | cons y r2 => rw [hasTriple_cons3]; simp [hb]

theorem hasTriple_cons2_ne (c1 c2 : Nat) (t : JStr) (hc : c2 ≠ 10) :
    hasTriple (c1 :: c2 :: t) = hasTriple (c2 :: t) := by
  have hb : (c2 == 10) = false := by simpa using hc
  cases t with
  | nil => rfl
  | cons c3 r => rw [hasTriple_cons3]; simp [hb]

theorem hasTriple_tail (c : Nat) (t : JStr) (h : hasTriple (c :: t) = false) :
    hasTriple t = false := by
  cases t with
  | nil => rfl
  | cons x r =>
    cases r with
    | nil => rfl
    | cons y r2 =>
      rw [hasTriple_cons3, Bool.or_eq_false_iff] at h
      exact h.2

theorem hasTriple_iff : ∀ s : JStr, hasTriple s = true ↔ [10, 10, 10] <:+: s := by
  intro s
  induction s with
  | nil =>
    constructor
    · intro h; exact absurd h (by simp [hasTriple])
    · intro h; have := h.length_le; simp at this
  | cons c rest ih =>
    rw [List.infix_cons_iff]
    cases rest with
    | nil =>
      constructor
      · intro h; exact absurd h (by simp [hasTriple])
      · intro h
        rcases h with hp | hi
        · have := hp.length_le; simp at this
        · have := hi.length_le; simp at this
    | cons x r =>
      cases r with
      | nil =>
        constructor
        · intro h; exact absurd h (by simp [hasTriple])
        · intro h
          rcases h with hp | hi
          · have := hp.length_le; simp at this
          · have := hi.length_le; simp at this
      | cons y r2 =>
        rw [hasTriple_cons3]
        constructor
        · intro h
          rcases (by simpa using h :
              ((c = 10 ∧ x = 10) ∧ y = 10) ∨ hasTriple (x :: y :: r2) = true) with
            ⟨⟨h1, h2⟩, h3⟩ | h2
          · subst h1; subst h2; subst h3
            exact Or.inl ⟨r2, rfl⟩
          · exact Or.inr (ih.mp h2)
        · intro h
          rcases h with hp | hi
          · obtain ⟨t, ht⟩ := hp
            have hc : c = 10 ∧ x = 10 ∧ y = 10 := by
              have h0 := ht
              simp only [List.cons_append, List.nil_append, List.cons.injEq] at h0
              exact ⟨h0.1.symm, h0.2.1.symm, h0.2.2.1.symm⟩
            simp [hc.1, hc.2.1, hc.2.2]
          · simp [ih.mpr hi]

theorem hasTriple_mono (t s : JStr) (h : t <:+: s)
    (ht : hasTriple t = true) : hasTriple s = true :=
  (hasTriple_iff s).mpr (((hasTriple_iff t).mp ht).trans h)

theorem hasTriple_jsTrim (s : JStr) (h : hasTriple s = false) :
    hasTriple (jsTrim s) = false := by
  cases ht : hasTriple (jsTrim s) with
  | false => rfl
  | true =>
    have hinf : jsTrim s <:+: s :=
      (jsTrim_pref s).isInfix.trans (List.dropWhile_suffix jsWs).isInfix
    exact absurd (hasTriple_mono _ _ hinf ht) (by simp [h])

theorem drop_len_takeWhile (p : Nat → Bool) :
    ∀ l : JStr, l.drop (l.takeWhile p).length = l.dropWhile p := by
  intro l
  induction l with
  | nil => rfl
  | cons x xs ih =>
    rw [List.takeWhile_cons, List.dropWhile_cons]
    by_cases hx : p x
    · rw [if_pos hx, if_pos hx]
      simpa using ih
    · rw [if_neg hx, if_neg hx]
      rfl

theorem matchNl3_ne (c : Nat) (r : JStr) (hc : c ≠ 10) : matchNl3 (c :: r) = none :=
  headGuard_trig 10 nlCore c r hc

theorem collapse_cons_ne (c : Nat) (r : JStr) (hc : c ≠ 10) :
    replaceScan matchNl3 (c :: r) = c :: replaceScan matchNl3 r :=
  replaceScan_cons_none _ _ _ (matchNl3_ne c r hc)

theorem matchNl3_single (x : Nat) : matchNl3 [x] = none := by
  simp [matchNl3, headGuard, nlCore]

theorem matchNl3_pair (x y : Nat) (r : JStr) (hy : y = 10 → False) :
    matchNl3 (x :: y :: r) = none := by
  have hb : (y == 10) = false := by
    cases hyy : y == 10 with
    | false => rfl
    | true => exact absurd (by simpa using hyy) hy
  cases r with
  | nil => simp [matchNl3, headGuard, nlCore, hb]
  | cons z r2 => simp [matchNl3, headGuard, nlCore, hb]

theorem collapse_triple (r2 : JStr) :
    replaceScan matchNl3 (10 :: 10 :: 10 :: r2) =
      [10, 10] ++ replaceScan matchNl3 (r2.dropWhile (fun c => c == 10)) := by
  have hm : matchNl3 (10 :: 10 :: 10 :: r2) =
      some ([10, 10], 2 + (r2.takeWhile (fun c => c == 10)).length + 1) := by
    simp [matchNl3, headGuard, nlCore]
  rw [replaceScan_cons_some _ _ _ _ _ hm]
  congr 1
  rw [Nat.add_sub_cancel]
  rw [show 2 + (r2.takeWhile (fun c => c == 10)).length =
        ((r2.takeWhile (fun c => c == 10)).length + 1) + 1 by omega]
  rw [List.drop_succ_cons, List.drop_succ_cons, drop_len_takeWhile]

theorem matchNl3_third (c1 c2 z : Nat) (r2 : JStr) (hz : z ≠ 10) :
    matchNl3 (c1 :: c2 :: z :: r2) = none := by
  have hb : (z == 10) = false := by simpa using hz
  simp [matchNl3, headGuard, nlCore, hb]

theorem collapse_noTriple_aux :
    ∀ n, ∀ s : JStr, s.length ≤ n → hasTriple (replaceScan matchNl3 s) = false := by
  intro n
  induction n using Nat.strong_induction_on with
  | _ n ih =>
    intro s hs
    cases n with
    | zero =>
      cases s with
      | nil => rfl
      | cons c r => simp at hs
    | succ n0 =>
      cases s with
      | nil => rfl
      | cons c rest =>
        have hrl : rest.length ≤ n0 := by simpa [Nat.succ_le_succ_iff] using hs
        by_cases hc : c = 10
        · subst hc
          rcases rest with _ | ⟨x, rest2⟩
          · rfl
          · rcases rest2 with _ | ⟨y, r2⟩
            · have h1 : matchNl3 (10 :: x :: []) = none := by
                simp [matchNl3, headGuard, nlCore]
              rw [replaceScan_cons_none _ _ _ h1,
                  replaceScan_cons_none _ _ _ (matchNl3_single x)]
              rfl
            · by_cases hx : x = 10
              · subst hx
                by_cases hy : y = 10
                · subst hy
                  rw [collapse_triple r2]
                  cases hd : r2.dropWhile (fun c => c == 10) with
                  | nil => rw [replaceScan_nil]; rfl
                  | cons e r3 =>
                    have he : e ≠ 10 := by
                      have := dropWhile_head_not _ r2 e r3 hd
                      simpa using this
                    rw [collapse_cons_ne e r3 he]
                    have hlen : r3.length ≤ n0 := by
                      have h1 : (e :: r3).length ≤ r2.length := by
                        rw [← hd]; exact (List.dropWhile_suffix (l := r2) _).length_le
                      simp only [List.length_cons] at h1 hrl
                      omega
                    have hrec := ih n0 (Nat.lt_succ_self n0) r3 hlen
                    show hasTriple (10 :: 10 :: e :: replaceScan matchNl3 r3) = false
                    rw [hasTriple_cons3]
                    have hb : (e == 10) = false := by simpa using he
                    simp only [hb, Bool.and_false, Bool.false_or]
                    rw [hasTriple_cons2_ne 10 e _ he, hasTriple_cons_ne e _ he]
                    exact hrec
                · rw [replaceScan_cons_none _ _ _ (matchNl3_third 10 10 y r2 hy),
                      replaceScan_cons_none _ _ _ (matchNl3_pair 10 y r2 (fun h => hy h)),
                      collapse_cons_ne y r2 hy]
                  rw [hasTriple_cons3]
                  have hb : (y == 10) = false := by simpa using hy
                  simp only [hb, Bool.and_false, Bool.false_and, Bool.false_or]
                  rw [hasTriple_cons2_ne 10 y _ hy, hasTriple_cons_ne y _ hy]
                  exact ih n0 (Nat.lt_succ_self n0) r2
                    (by simp only [List.length_cons] at hrl; omega)
              · rw [replaceScan_cons_none _ _ _ (matchNl3_pair 10 x (y :: r2) (fun h => hx h)),
                    collapse_cons_ne x (y :: r2) hx]
                rw [hasTriple_cons2_ne 10 x _ hx, hasTriple_cons_ne x _ hx]
                exact ih n0 (Nat.lt_succ_self n0) (y :: r2)
                  (by simp only [List.length_cons] at hrl ⊢; omega)
        · rw [collapse_cons_ne c rest hc, hasTriple_cons_ne c _ hc]
          exact ih n0 (Nat.lt_succ_self n0) rest hrl

theorem collapse_noTriple (s : JStr) : hasTriple (replaceScan matchNl3 s) = false :=
  collapse_noTriple_aux s.length s (Nat.le_refl _)

theorem collapse_id : ∀ s : JStr, hasTriple s = false → replaceScan matchNl3 s = s := by
  intro s
  induction s with
  | nil => intro _; rfl
  | cons c rest ih =>
    intro h
    have hr := hasTriple_tail c rest h
    by_cases hc : c = 10
    · subst hc
      rcases rest with _ | ⟨x, rest2⟩
      · rfl
      · rcases rest2 with _ | ⟨y, r2⟩
        · have h1 : matchNl3 (10 :: x :: []) = none := by
            simp [matchNl3, headGuard, nlCore]
          rw [replaceScan_cons_none _ _ _ h1, ih hr]
        · by_cases hx : x = 10
          · subst hx
            by_cases hy : y = 10
            · subst hy
              rw [hasTriple_cons3] at h
              simp at h
            · rw [replaceScan_cons_none _ _ _ (matchNl3_third 10 10 y r2 hy), ih hr]
          · rw [replaceScan_cons_none _ _ _ (matchNl3_pair 10 x (y :: r2) (fun h2 => hx h2)),
                ih hr]
    · rw [replaceScan_cons_none _ _ _ (matchNl3_ne c rest hc), ih hr]

/-! ## Entity-stage identity lemmas -/

theorem foldl_scan_id (tbl : List (JStr × JStr)) (s : JStr) (h38 : 38 ∉ s)
    (htbl : ∀ pr ∈ tbl, List.head? pr.1 = some 38) :
    tbl.foldl (fun acc pr => replaceScan (matchLit pr.1 pr.2) acc) s = s := by
  induction tbl with
  | nil => rfl
  | cons pr tbl ih =>
    have hh := htbl pr (List.mem_cons_self pr tbl)
    simp only [List.foldl_cons]
    have hid : replaceScan (matchLit pr.1 pr.2) s = s := by
      cases hp : pr.1 with
      | nil => rw [hp] at hh; simp at hh
      | cons t ps =>
        rw [hp] at hh
        have ht : t = 38 := by simpa using hh
        subst ht
        exact scan_id _ 38 (matchLit_trig 38 ps pr.2) s h38
    rw [hid]
    exact ih (fun q hq => htbl q (List.mem_cons_of_mem _ hq))

theorem decodeNamed_id (s : JStr) (h : 38 ∉ s) : decodeNamed s = s :=
  foldl_scan_id entityTable s h (by decide)

theorem matchDecEnt_trig : HeadTrig matchDecEnt 38 := by
  intro c r hc
  simp [matchDecEnt, matchDecEntRaw, headGuard, hc]

theorem matchHexEnt_trig : HeadTrig matchHexEnt 38 := by
  intro c r hc
  simp [matchHexEnt, matchHexEntRaw, headGuard, hc]

theorem decode_id (s : JStr) (h : 38 ∉ s) : decodeHtmlEntities s = s := by
  unfold decodeHtmlEntities
  rw [decodeNamed_id s h, scan_id _ 38 matchDecEnt_trig s h,
      scan_id _ 38 matchHexEnt_trig s h]

/-! ## Structural properties of the converter output -/

theorem htmlToMrkdwn_shape (s : JStr) :
    hasTriple (htmlToMrkdwn s) = false ∧ noEdgeWs (htmlToMrkdwn s) = true := by
  by_cases h : s = []
  · subst h
    exact ⟨rfl, rfl⟩
  · unfold htmlToMrkdwn
    rw [if_neg h]
    exact ⟨hasTriple_jsTrim _ (collapse_noTriple _), noEdgeWs_jsTrim _⟩

theorem matchBr_trig : HeadTrig matchBr 60 := headGuard_trig 60 _

theorem matchPPair_trig : HeadTrig matchPPair 60 := headGuard_trig 60 _

theorem matchPOpen_trig : HeadTrig matchPOpen 60 := headGuard_trig 60 _

theorem matchPClose_trig : HeadTrig matchPClose 60 := headGuard_trig 60 _

theorem matchAnchor_trig : HeadTrig matchAnchor 60 := headGuard_trig 60 _

theorem matchBold_trig : HeadTrig matchBold 60 := headGuard_trig 60 _

theorem matchItalic_trig : HeadTrig matchItalic 60 := headGuard_trig 60 _

theorem matchStrike_trig : HeadTrig matchStrike 60 := headGuard_trig 60 _

theorem matchLi_trig : HeadTrig matchLi 60 := headGuard_trig 60 _

theorem matchUlOl_trig : HeadTrig matchUlOl 60 := headGuard_trig 60 _

theorem matchH_trig : HeadTrig matchH 60 := headGuard_trig 60 _

theorem matchStrip_trig : HeadTrig matchStrip 60 := headGuard_trig 60 _

theorem matchLinkStart_trig : HeadTrig (matchLit linkStartSeq [60]) 0 :=
  matchLit_trig 0 (uc ("LINK_START")) [60]

theorem matchLinkEnd_trig : HeadTrig (matchLit linkEndSeq [62]) 0 :=
  matchLit_trig 0 (uc ("LINK_END")) [62]

theorem mem_of_infix_head (t : Nat) (ps s : JStr) (h : (t :: ps) <:+: s) : t ∈ s := by
  obtain ⟨u, v, huv⟩ := h
  rw [← huv]
  simp

/-- A string on which every pipeline stage is the identity is a fixed point
of the converter: no `<` (every tag stage), no sentinel occurrence (the
restores), no `&` (every entity pass), no triple newline (the collapse) and
no whitespace at either end (the trim). -/
theorem convert_fixed (y : JStr) (h60 : 60 ∉ y) (h38 : 38 ∉ y)
    (hs : ¬ linkStartSeq <:+: y) (he : ¬ linkEndSeq <:+: y)
    (ht : hasTriple y = false) (hed : noEdgeWs y = true) : htmlToMrkdwn y = y := by
  by_cases hnil : y = []
  · rw [hnil]; rfl
  · simp only [htmlToMrkdwn]
    rw [if_neg hnil]
    rw [scan_id _ 60 matchBr_trig y h60, scan_id _ 60 matchPPair_trig y h60,
        scan_id _ 60 matchPOpen_trig y h60, scan_id _ 60 matchPClose_trig y h60,
        scan_id _ 60 matchAnchor_trig y h60, scan_id _ 60 matchBold_trig y h60,
        scan_id _ 60 matchItalic_trig y h60, scan_id _ 60 matchStrike_trig y h60,
        scan_id _ 60 matchLi_trig y h60, scan_id _ 60 matchUlOl_trig y h60,
        scan_id _ 60 matchH_trig y h60, scan_id _ 60 matchStrip_trig y h60,
        scan_lit_id linkStartSeq [60] y hs, scan_lit_id linkEndSeq [62] y he,
        decode_id y h38, collapse_id y ht, jsTrim_id y hed]

/-! ## The error-instrumented pipeline always succeeds -/

theorem decEntCore_ne (r ds : JStr) (n : Nat)
    (h : decEntCore r = some (ds, n)) : ds.isEmpty = false := by
  cases r with
  | nil => exact absurd h (by simp [decEntCore])
  | cons c0 rest =>
    simp only [decEntCore] at h
    by_cases h35 : (c0 == 35) = true
    · rw [if_pos h35] at h
      by_cases hemp : (rest.takeWhile isDigit).isEmpty = true
      · rw [if_pos hemp] at h
        exact absurd h (by simp)
      · rw [if_neg hemp] at h
        cases hdw : rest.dropWhile isDigit with
        | nil =>
          simp only [hdw] at h
          exact absurd h (by simp)
        | cons c tail =>
          simp only [hdw] at h
          by_cases h59 : (c == 59) = true
          · rw [if_pos h59] at h
            have hh : rest.takeWhile isDigit = ds := by
              simp only [Option.some.injEq, Prod.mk.injEq] at h
              exact h.1
            rw [← hh]
            simpa using hemp
          · rw [if_neg h59] at h
            exact absurd h (by simp)
    · rw [if_neg h35] at h
      exact absurd h (by simp)

theorem hexEntCore_ne (r ds : JStr) (n : Nat)
    (h : hexEntCore r = some (ds, n)) : ds.isEmpty = false := by
  cases r with
  | nil => exact absurd h (by simp [hexEntCore])
  | cons c0 r1 =>
    cases r1 with
    | nil => exact absurd h (by simp [hexEntCore])
    | cons c1 rest =>
      simp only [hexEntCore] at h
      by_cases h35 : (c0 == 35 && c1 == 120) = true
      · rw [if_pos h35] at h
        by_cases hemp : (rest.takeWhile isHexDigit).isEmpty = true
        · rw [if_pos hemp] at h
          exact absurd h (by simp)
        · rw [if_neg hemp] at h
          cases hdw : rest.dropWhile isHexDigit with
          | nil =>
            simp only [hdw] at h
            exact absurd h (by simp)
          | cons c tail =>
            simp only [hdw] at h
            by_cases h59 : (c == 59) = true
            · rw [if_pos h59] at h
              have hh : rest.takeWhile isHexDigit = ds := by
                simp only [Option.some.injEq, Prod.mk.injEq] at h
                exact h.1
              rw [← hh]
              simpa using hemp
            · rw [if_neg h59] at h
              exact absurd h (by simp)
      · rw [if_neg h35] at h
        exact absurd h (by simp)

theorem matchDecEntRaw_ne (s ds : JStr) (n : Nat)
    (h : matchDecEntRaw s = some (ds, n)) : ds.isEmpty = false := by
  cases s with
  | nil => exact absurd h (by simp [matchDecEntRaw, headGuard])
  | cons c rest =>
    simp only [matchDecEntRaw, headGuard] at h
    split at h
    · cases hcore : decEntCore rest with
      | none => rw [hcore] at h; exact absurd h (by simp)
      | some p =>
        obtain ⟨ds0, n0⟩ := p
        rw [hcore] at h
        have hh : ds0 = ds ∧ n0 + 1 = n := by
          change (some (ds0, n0 + 1) : Option (JStr × Nat)) = some (ds, n) at h
          simpa using h
        rw [← hh.1]
        exact decEntCore_ne _ _ _ hcore
    · exact absurd h (by simp)

theorem matchHexEntRaw_ne (s ds : JStr) (n : Nat)
    (h : matchHexEntRaw s = some (ds, n)) : ds.isEmpty = false := by
  cases s with
  | nil => exact absurd h (by simp [matchHexEntRaw, headGuard])
  | cons c rest =>
    simp only [matchHexEntRaw, headGuard] at h
    split at h
    · cases hcore : hexEntCore rest with
      | none => rw [hcore] at h; exact absurd h (by simp)
      | some p =>
        obtain ⟨ds0, n0⟩ := p
        rw [hcore] at h
        have hh : ds0 = ds ∧ n0 + 1 = n := by
          change (some (ds0, n0 + 1) : Option (JStr × Nat)) = some (ds, n) at h
          simpa using h
        rw [← hh.1]
        exact hexEntCore_ne _ _ _ hcore
    · exact absurd h (by simp)

theorem scanDecE_ok : ∀ f s, scanNumE matchDecEntRaw parseDec f s =
    Except.ok (scanAux matchDecEnt f s) := by
  intro f
  induction f with
  | zero => intro s; rfl
  | succ f ih =>
    intro s
    cases s with
    | nil => rfl
    | cons c rest =>
      cases hr : matchDecEntRaw (c :: rest) with
      | none =>
        simp only [scanNumE, scanAux, matchDecEnt, hr, ih]
        rfl
      | some p =>
        obtain ⟨ds, n⟩ := p
        have hne := matchDecEntRaw_ne _ _ _ hr
        simp only [scanNumE, scanAux, matchDecEnt, hr, parseDec, hne, ih]
        simp [Except.map]

theorem scanHexE_ok : ∀ f s, scanNumE matchHexEntRaw parseHex f s =
    Except.ok (scanAux matchHexEnt f s) := by
  intro f
  induction f with
  | zero => intro s; rfl
  | succ f ih =>
    intro s
    cases s with
    | nil => rfl
    | cons c rest =>
      cases hr : matchHexEntRaw (c :: rest) with
      | none =>
        simp only [scanNumE, scanAux, matchHexEnt, hr, ih]
        rfl
      | some p =>
        obtain ⟨ds, n⟩ := p
        have hne := matchHexEntRaw_ne _ _ _ hr
        simp only [scanNumE, scanAux, matchHexEnt, hr, parseHex, hne, ih]
        simp [Except.map]

theorem decodeHtmlEntitiesE_ok (s : JStr) :
    decodeHtmlEntitiesE s = Except.ok (decodeHtmlEntities s) := by
  unfold decodeHtmlEntitiesE
  simp only [scanDecE_ok, scanHexE_ok]
  rfl

/-! ## Claim theorems -/

/-- C1: the converter is total: for every string input, including strings
that are not valid HTML, `htmlToMrkdwn` returns a string and never raises
or throws.  The error-instrumented pipeline `htmlToMrkdwnE`, in which the
one potentially failing operation of the source (`parseInt` yielding `NaN`
inside the numeric-entity decoding) is an explicit `Except.error`, returns
`Except.ok` of the plain result on every input: there is no observable
"invalid input" outcome. -/
theorem C1_total (s : JStr) : htmlToMrkdwnE s = Except.ok (htmlToMrkdwn s) := by
  unfold htmlToMrkdwnE htmlToMrkdwn
  by_cases h : s = []
  · rw [if_pos h, if_pos h]
  · rw [if_neg h, if_neg h]
    simp only [decodeHtmlEntitiesE_ok]

/-- C2 counterexample: `" a "` contains no markup, yet the converter does
not echo it back unchanged — the final trim removes the surrounding
spaces, returning `"a"`. -/
theorem C2_counterexample :
    htmlToMrkdwn (uc (" a ")) = uc ("a") ∧ htmlToMrkdwn (uc (" a ")) ≠ uc (" a ") := by
  constructor
  · decide
  · decide

/-- C2 (amended): an input that is empty, or that contains no `<`, no `&`,
no NUL unit, no run of three newlines, and no leading or trailing
whitespace, is echoed back unchanged; in particular
`convert ""` is `""` and `convert "plain text"` is `"plain text"`. -/
theorem C2_no_markup_echo (s : JStr) (h60 : 60 ∉ s) (h38 : 38 ∉ s) (h0 : 0 ∉ s)
    (ht : hasTriple s = false) (he : noEdgeWs s = true) :
    htmlToMrkdwn s = s ∧ htmlToMrkdwn (uc ("")) = uc ("") ∧
      htmlToMrkdwn (uc ("plain text")) = uc ("plain text") := by
  refine ⟨?_, by decide, by decide⟩
  refine convert_fixed s h60 h38 ?_ ?_ ht he
  · intro hinf
    exact h0 (mem_of_infix_head 0 (uc ("LINK_START")) s hinf)
  · intro hinf
    exact h0 (mem_of_infix_head 0 (uc ("LINK_END")) s hinf)

theorem C2_no_markup_echo_witness :
    htmlToMrkdwn (uc ("plain text")) = uc ("plain text") :=
  (C2_no_markup_echo (uc ("plain text")) (by decide) (by decide) (by decide)
    (by decide) (by decide)).1

/-- C3 counterexample: `convert "&amp;amp;"` is `"&amp;"`, which contains
no HTML angle bracket, yet a second application decodes it further to
`"&"`: the converter is not idempotent on bracket-free output. -/
theorem C3_counterexample :
    htmlToMrkdwn (uc ("&amp;amp;")) = uc ("&amp;") ∧
      (60 ∉ htmlToMrkdwn (uc ("&amp;amp;")) ∧ 62 ∉ htmlToMrkdwn (uc ("&amp;amp;"))) ∧
      htmlToMrkdwn (htmlToMrkdwn (uc ("&amp;amp;"))) ≠ htmlToMrkdwn (uc ("&amp;amp;")) := by
  refine ⟨by decide, ⟨by decide, by decide⟩, by decide⟩

/-- C3 (amended): a second application of the converter is a no-op on
output that contains no HTML angle bracket, no ampersand, and no
occurrence of the sentinel sequences `\x00LINK_START` / `\x00LINK_END`. -/
theorem C3_idempotent (x : JStr)
    (h60 : 60 ∉ htmlToMrkdwn x) (h62 : 62 ∉ htmlToMrkdwn x)
    (h38 : 38 ∉ htmlToMrkdwn x)
    (hs : ¬ linkStartSeq <:+: htmlToMrkdwn x) (he : ¬ linkEndSeq <:+: htmlToMrkdwn x) :
    htmlToMrkdwn (htmlToMrkdwn x) = htmlToMrkdwn x :=
  convert_fixed (htmlToMrkdwn x) h60 h38 hs he
    (htmlToMrkdwn_shape x).1 (htmlToMrkdwn_shape x).2

theorem C3_idempotent_witness :
    htmlToMrkdwn (htmlToMrkdwn (uc ("plain"))) = htmlToMrkdwn (uc ("plain")) :=
  C3_idempotent (uc ("plain")) (by decide) (by decide) (by decide)
    (by decide) (by decide)

/-- C7: every `<br>` variant becomes one newline; any run of three or more
newlines in the result collapses to exactly two (the final result never
contains three consecutive newlines) and the whole result is trimmed of
leading and trailing whitespace; in particular
`convert "a<br><br><br><br>b"` is `"a\n\nb"`. -/
theorem C7_br_newlines :
    (∀ s : JStr, hasTriple (htmlToMrkdwn s) = false ∧ noEdgeWs (htmlToMrkdwn s) = true) ∧
      htmlToMrkdwn (uc ("a<br><br><br><br>b")) = uc ("a\n\nb") ∧
      htmlToMrkdwn (uc ("a<br>b")) = uc ("a\nb") ∧
      htmlToMrkdwn (uc ("a<br/>b")) = uc ("a\nb") ∧
      htmlToMrkdwn (uc ("a<br />b")) = uc ("a\nb") ∧
      htmlToMrkdwn (uc ("a<BR\t\n/>b")) = uc ("a\nb") :=
  ⟨htmlToMrkdwn_shape, by decide, by decide, by decide, by decide, by decide⟩

/-- C10: the named-entity passes run sequentially with `&amp;` first, and
numeric decoding runs on their output, so entity text produced by an
earlier replacement is decoded again within one call:
`convert "&amp;lt;"` is `"<"` (not `"&lt;"`) and `convert "&amp;#65;"` is
`"A"` (not `"&#65;"`). -/
theorem C10_double_decode :
    htmlToMrkdwn (uc ("&amp;lt;")) = uc ("<") ∧
      htmlToMrkdwn (uc ("&amp;#65;")) = uc ("A") ∧
      htmlToMrkdwn (uc ("&amp;lt;")) ≠ uc ("&lt;") ∧
      htmlToMrkdwn (uc ("&amp;#65;")) ≠ uc ("&#65;") :=
  ⟨by decide, by decide, by decide, by decide⟩

/-! ## C8: numeric entity decoding -/

theorem all_mem_of_all (p : Nat → Bool) (l : JStr) (h : l.all p = true) :
    ∀ c ∈ l, p c = true := List.all_eq_true.mp h

theorem scan_dec_entity (ds : JStr) (hne : ds ≠ []) (hd : ds.all isDigit = true) :
    replaceScan matchDecEnt ([38, 35] ++ ds ++ [59]) =
      [toFloat64 (decVal ds) % 65536] := by
  have htw : (ds ++ [59]).takeWhile isDigit = ds := by
    rw [List.takeWhile_append_of_pos (all_mem_of_all _ _ hd)]
    simp [List.takeWhile_cons, isDigit]
  have hdw : (ds ++ [59]).dropWhile isDigit = [59] := by
    rw [List.dropWhile_append_of_pos (all_mem_of_all _ _ hd)]
    simp [List.dropWhile_cons, isDigit]
  have hemp : ds.isEmpty = false := by
    cases ds with
    | nil => exact absurd rfl hne
    | cons c r => rfl
  have hcore : decEntCore (35 :: (ds ++ [59])) = some (ds, 1 + ds.length + 1) := by
    simp only [decEntCore, htw, hdw, hemp]
    simp
  have hm : matchDecEnt (38 :: (35 :: (ds ++ [59]))) =
      some ([toFloat64 (decVal ds) % 65536], 1 + ds.length + 1 + 1) := by
    simp only [matchDecEnt, matchDecEntRaw, headGuard, hcore]
    simp
  have hshape : [38, 35] ++ ds ++ [59] = 38 :: (35 :: (ds ++ [59])) := by simp
  rw [hshape, replaceScan_cons_some _ _ _ _ _ hm]
  have hdrop : List.drop (1 + ds.length + 1 + 1 - 1) (35 :: (ds ++ [59])) = [] := by
    rw [show 1 + ds.length + 1 + 1 - 1 = (ds ++ [59]).length + 1 by
      simp only [List.length_append, List.length_cons, List.length_nil]; omega]
    rw [List.drop_succ_cons]
    exact List.drop_length _
  rw [hdrop, replaceScan_nil]
  simp

theorem scan_hex_entity (ds : JStr) (hne : ds ≠ []) (hd : ds.all isHexDigit = true) :
    replaceScan matchHexEnt ([38, 35, 120] ++ ds ++ [59]) =
      [toFloat64 (hexVal ds) % 65536] := by
  have htw : (ds ++ [59]).takeWhile isHexDigit = ds := by
    rw [List.takeWhile_append_of_pos (all_mem_of_all _ _ hd)]
    simp [List.takeWhile_cons, isHexDigit, isDigit]
  have hdw : (ds ++ [59]).dropWhile isHexDigit = [59] := by
    rw [List.dropWhile_append_of_pos (all_mem_of_all _ _ hd)]
    simp [List.dropWhile_cons, isHexDigit, isDigit]
  have hemp : ds.isEmpty = false := by
    cases ds with
    | nil => exact absurd rfl hne
    | cons c r => rfl
  have hcore : hexEntCore (35 :: (120 :: (ds ++ [59]))) = some (ds, 2 + ds.length + 1) := by
    simp only [hexEntCore, htw, hdw, hemp]
    simp
  have hm : matchHexEnt (38 :: (35 :: (120 :: (ds ++ [59])))) =
      some ([toFloat64 (hexVal ds) % 65536], 2 + ds.length + 1 + 1) := by
    simp only [matchHexEnt, matchHexEntRaw, headGuard, hcore]
    simp
  have hshape : [38, 35, 120] ++ ds ++ [59] = 38 :: (35 :: (120 :: (ds ++ [59]))) := by simp
  rw [hshape, replaceScan_cons_some _ _ _ _ _ hm]
  have hdrop : List.drop (2 + ds.length + 1 + 1 - 1) (35 :: (120 :: (ds ++ [59]))) = [] := by
    rw [show 2 + ds.length + 1 + 1 - 1 = ((ds ++ [59]).length + 1) + 1 by
      simp only [List.length_append, List.length_cons, List.length_nil]; omega]
    rw [List.drop_succ_cons, List.drop_succ_cons]
    exact List.drop_length _
  rw [hdrop, replaceScan_nil]
  simp

/-- C8: a decimal entity `&#N;` (nonempty digit capture `ds`) decodes to
the single UTF-16 code unit `parseInt(ds,10) % 2^16` and a hexadecimal
entity `&#xH;` to `parseInt(hs,16) % 2^16`, where `parseInt` yields the
binary64 (float64) value of the digits — `toFloat64` of the exact integer,
so captures above `2^53` are rounded before the code unit is taken —
code-unit (ToUint16), not code-point, semantics; the decoding stage never
produces an error value on any input (malformed numeric entities simply do
not match and are left in place); in particular `convert "&#65;"` and
`convert "&#x41;"` are both `"A"`, and at the rounding edge
`convert "&#9007199254740993;"` (decimal `2^53 + 1`, parsed as `2^53`) and
`convert "&#x20000000000001;"` (the same value in hex) are both the single
unit `2^53 % 2^16 = 0`, not unit `1`. -/
theorem C8_numeric_entities (ds hs : JStr)
    (hne : ds ≠ []) (hd : ds.all isDigit = true)
    (hne2 : hs ≠ []) (hh : hs.all isHexDigit = true) :
    replaceScan matchDecEnt (uc ("&#") ++ ds ++ uc (";")) =
        [toFloat64 (decVal ds) % 65536] ∧
      replaceScan matchHexEnt (uc ("&#x") ++ hs ++ uc (";")) =
        [toFloat64 (hexVal hs) % 65536] ∧
      (∀ s : JStr, scanNumE matchDecEntRaw parseDec s.length s =
        Except.ok (replaceScan matchDecEnt s)) ∧
      (∀ s : JStr, scanNumE matchHexEntRaw parseHex s.length s =
        Except.ok (replaceScan matchHexEnt s)) ∧
      htmlToMrkdwn (uc ("&#65;")) = uc ("A") ∧
      htmlToMrkdwn (uc ("&#x41;")) = uc ("A") ∧
      htmlToMrkdwn (uc ("&#;")) = uc ("&#;") ∧
      htmlToMrkdwn (uc ("&#xG;")) = uc ("&#xG;") ∧
      toFloat64 9007199254740993 = 9007199254740992 ∧
      htmlToMrkdwn (uc ("&#9007199254740993;")) = [0] ∧
      htmlToMrkdwn (uc ("&#x20000000000001;")) = [0] := by
  refine ⟨?_, ?_, fun s => scanDecE_ok s.length s, fun s => scanHexE_ok s.length s,
    by decide, by decide, by decide, by decide, by decide, by decide, by decide⟩
  · rw [show uc ("&#") = [38, 35] from rfl, show uc (";") = [59] from rfl]
    exact scan_dec_entity ds hne hd
  · rw [show uc ("&#x") = [38, 35, 120] from rfl, show uc (";") = [59] from rfl]
    exact scan_hex_entity hs hne2 hh

theorem C8_numeric_entities_witness :
    replaceScan matchDecEnt (uc ("&#") ++ uc ("65") ++ uc (";")) = [65] ∧
      replaceScan matchHexEnt (uc ("&#x") ++ uc ("41") ++ uc (";")) = [65] := by
  have h := C8_numeric_entities (uc ("65")) (uc ("41"))
    (by decide) (by decide) (by decide) (by decide)
  exact ⟨h.1.trans (by decide), h.2.1.trans (by decide)⟩

/-! ## C9: unconditional sentinel restoration -/

/-- A code unit that takes part in no pipeline stage: not `<`, not `&`, not
NUL, and not JS whitespace. -/
def inert (c : Nat) : Bool := !(c == 60 || c == 38 || c == 0 || jsWs c)

theorem all_inert_no60 (a : JStr) (h : a.all inert = true) : 60 ∉ a := by
  intro hm
  exact absurd (List.all_eq_true.mp h 60 hm) (by decide)

theorem all_inert_no38 (a : JStr) (h : a.all inert = true) : 38 ∉ a := by
  intro hm
  exact absurd (List.all_eq_true.mp h 38 hm) (by decide)

theorem all_inert_no0 (a : JStr) (h : a.all inert = true) : 0 ∉ a := by
  intro hm
  exact absurd (List.all_eq_true.mp h 0 hm) (by decide)

theorem all_inert_no10 (a : JStr) (h : a.all inert = true) : 10 ∉ a := by
  intro hm
  exact absurd (List.all_eq_true.mp h 10 hm) (by decide)

theorem all_inert_ws (a : JStr) (h : a.all inert = true) (c : Nat) (hc : c ∈ a) :
    jsWs c = false := by
  by_cases hw : jsWs c = true
  · exact absurd (List.all_eq_true.mp h c hc) (by simp [inert, hw])
  · simpa using hw

theorem not_mem_append3 (x : Nat) (a b c : JStr)
    (ha : x ∉ a) (hb : x ∉ b) (hc : x ∉ c) : x ∉ a ++ b ++ c := by
  intro h
  rcases List.mem_append.mp h with h1 | h2
  · rcases List.mem_append.mp h1 with h3 | h4
    · exact ha h3
    · exact hb h4
  · exact hc h2

theorem hasTriple_of_no10 : ∀ s : JStr, 10 ∉ s → hasTriple s = false := by
  intro s
  induction s with
  | nil => intro _; rfl
  | cons c rest ih =>
    intro h
    have hc : c ≠ 10 := fun hh => h (by simp [hh])
    rw [hasTriple_cons_ne c rest hc]
    exact ih (fun hh => h (List.mem_cons_of_mem _ hh))

theorem noEdgeWs_wrap (a b : JStr) (m : Nat) (hm : jsWs m = false)
    (ha : ∀ c ∈ a, jsWs c = false) (hb : ∀ c ∈ b, jsWs c = false) :
    noEdgeWs (a ++ [m] ++ b) = true := by
  unfold noEdgeWs
  rw [Bool.and_eq_true]
  constructor
  · cases a with
    | nil => simpa [noWsHead] using hm
    | cons c r => simpa [noWsHead] using ha c (by simp)
  · rw [show (a ++ [m] ++ b).reverse = b.reverse ++ [m] ++ a.reverse by simp]
    cases hbr : b.reverse with
    | nil => simpa [noWsHead] using hm
    | cons c r =>
      have hc : c ∈ b := by
        have hcr : c ∈ b.reverse := by rw [hbr]; simp
        simpa using hcr
      simpa [noWsHead] using hb c hc

theorem scan_lit_match (t : Nat) (ps rep b : JStr) (hb : t ∉ b) :
    replaceScan (matchLit (t :: ps) rep) (t :: (ps ++ b)) = rep ++ b := by
  have hl : litPref (t :: ps) (t :: (ps ++ b)) = some b := by
    have hla := litPref_append (t :: ps) b
    simpa using hla
  have hm : matchLit (t :: ps) rep (t :: (ps ++ b)) = some (rep, ps.length + 1) := by
    simp [matchLit, hl]
  rw [replaceScan_cons_some _ _ _ _ _ hm, Nat.add_sub_cancel, List.drop_left,
      scan_id _ t (matchLit_trig t ps rep) b hb]

theorem not_mem_append2 (x : Nat) (a b : JStr) (ha : x ∉ a) (hb : x ∉ b) :
    x ∉ a ++ b := by
  intro h
  rcases List.mem_append.mp h with h1 | h2
  · exact ha h1
  · exact hb h2

/-- Forged `\x00LINK_START` in otherwise-inert input is rewritten to `<`. -/
theorem restore_forge_start (a b : JStr) (ha : a.all inert = true)
    (hb : b.all inert = true) :
    htmlToMrkdwn (a ++ linkStartSeq ++ b) = a ++ [60] ++ b := by
  have h0a := all_inert_no0 a ha
  have h0b := all_inert_no0 b hb
  have h60 : 60 ∉ a ++ linkStartSeq ++ b :=
    not_mem_append3 60 _ _ _ (all_inert_no60 a ha) (by decide) (all_inert_no60 b hb)
  have hne : a ++ linkStartSeq ++ b ≠ [] := by
    intro hnil
    rw [List.append_assoc] at hnil
    rcases List.append_eq_nil.mp hnil with ⟨h1, h2⟩
    rcases List.append_eq_nil.mp h2 with ⟨h3, _⟩
    exact absurd h3 (by decide)
  simp only [htmlToMrkdwn]
  rw [if_neg hne]
  rw [scan_id _ 60 matchBr_trig _ h60, scan_id _ 60 matchPPair_trig _ h60,
      scan_id _ 60 matchPOpen_trig _ h60, scan_id _ 60 matchPClose_trig _ h60,
      scan_id _ 60 matchAnchor_trig _ h60, scan_id _ 60 matchBold_trig _ h60,
      scan_id _ 60 matchItalic_trig _ h60, scan_id _ 60 matchStrike_trig _ h60,
      scan_id _ 60 matchLi_trig _ h60, scan_id _ 60 matchUlOl_trig _ h60,
      scan_id _ 60 matchH_trig _ h60, scan_id _ 60 matchStrip_trig _ h60]
  rw [List.append_assoc, scan_skip _ 0 matchLinkStart_trig a _ h0a]
  rw [show linkStartSeq ++ b = 0 :: (uc ("LINK_START") ++ b) from by simp [linkStartSeq, uc]]
  rw [show replaceScan (matchLit linkStartSeq [60]) (0 :: (uc ("LINK_START") ++ b)) =
        [60] ++ b from scan_lit_match 0 (uc ("LINK_START")) [60] b h0b]
  have h0x : 0 ∉ a ++ ([60] ++ b) := by
    rw [← List.append_assoc]
    exact not_mem_append3 0 _ _ _ h0a (by decide) h0b
  rw [scan_id _ 0 matchLinkEnd_trig _ h0x]
  have h38x : 38 ∉ a ++ ([60] ++ b) := by
    rw [← List.append_assoc]
    exact not_mem_append3 38 _ _ _ (all_inert_no38 a ha) (by decide) (all_inert_no38 b hb)
  rw [decode_id _ h38x]
  have h10x : 10 ∉ a ++ ([60] ++ b) := by
    rw [← List.append_assoc]
    exact not_mem_append3 10 _ _ _ (all_inert_no10 a ha) (by decide) (all_inert_no10 b hb)
  rw [collapse_id _ (hasTriple_of_no10 _ h10x)]
  have hed : noEdgeWs (a ++ ([60] ++ b)) = true := by
    rw [← List.append_assoc]
    exact noEdgeWs_wrap a b 60 (by decide) (all_inert_ws a ha) (all_inert_ws b hb)
  rw [jsTrim_id _ hed, ← List.append_assoc]

/-- Forged `\x00LINK_END` in otherwise-inert input is rewritten to `>`. -/
theorem restore_forge_end (a b : JStr) (ha : a.all inert = true)
    (hb : b.all inert = true) :
    htmlToMrkdwn (a ++ linkEndSeq ++ b) = a ++ [62] ++ b := by
  have h0a := all_inert_no0 a ha
  have h0b := all_inert_no0 b hb
  have h60 : 60 ∉ a ++ linkEndSeq ++ b :=
    not_mem_append3 60 _ _ _ (all_inert_no60 a ha) (by decide) (all_inert_no60 b hb)
  have hne : a ++ linkEndSeq ++ b ≠ [] := by
    intro hnil
    rw [List.append_assoc] at hnil
    rcases List.append_eq_nil.mp hnil with ⟨h1, h2⟩
    rcases List.append_eq_nil.mp h2 with ⟨h3, _⟩
    exact absurd h3 (by decide)
  simp only [htmlToMrkdwn]
  rw [if_neg hne]
  rw [scan_id _ 60 matchBr_trig _ h60, scan_id _ 60 matchPPair_trig _ h60,
      scan_id _ 60 matchPOpen_trig _ h60, scan_id _ 60 matchPClose_trig _ h60,
      scan_id _ 60 matchAnchor_trig _ h60, scan_id _ 60 matchBold_trig _ h60,
      scan_id _ 60 matchItalic_trig _ h60, scan_id _ 60 matchStrike_trig _ h60,
      scan_id _ 60 matchLi_trig _ h60, scan_id _ 60 matchUlOl_trig _ h60,
      scan_id _ 60 matchH_trig _ h60, scan_id _ 60 matchStrip_trig _ h60]
  rw [List.append_assoc, scan_skip _ 0 matchLinkStart_trig a _ h0a]
  rw [show linkEndSeq ++ b = 0 :: (uc ("LINK_END") ++ b) from by simp [linkEndSeq, uc]]
  have hnone : matchLit linkStartSeq [60] (0 :: (uc ("LINK_END") ++ b)) = none := by
    rw [show linkStartSeq = [0, 76, 73, 78, 75, 95, 83, 84, 65, 82, 84] from rfl,
        show uc ("LINK_END") = [76, 73, 78, 75, 95, 69, 78, 68] from rfl]
    simp [matchLit, litPref]
  rw [replaceScan_cons_none _ _ _ hnone]
  have h0y : 0 ∉ uc ("LINK_END") ++ b :=
    not_mem_append2 0 _ _ (by decide) h0b
  rw [scan_id _ 0 matchLinkStart_trig _ h0y]
  rw [scan_skip _ 0 matchLinkEnd_trig a _ h0a]
  rw [show replaceScan (matchLit linkEndSeq [62]) (0 :: (uc ("LINK_END") ++ b)) =
        [62] ++ b from scan_lit_match 0 (uc ("LINK_END")) [62] b h0b]
  have h38x : 38 ∉ a ++ ([62] ++ b) := by
    rw [← List.append_assoc]
    exact not_mem_append3 38 _ _ _ (all_inert_no38 a ha) (by decide) (all_inert_no38 b hb)
  rw [decode_id _ h38x]
  have h10x : 10 ∉ a ++ ([62] ++ b) := by
    rw [← List.append_assoc]
    exact not_mem_append3 10 _ _ _ (all_inert_no10 a ha) (by decide) (all_inert_no10 b hb)
  rw [collapse_id _ (hasTriple_of_no10 _ h10x)]
  have hed : noEdgeWs (a ++ ([62] ++ b)) = true := by
    rw [← List.append_assoc]
    exact noEdgeWs_wrap a b 62 (by decide) (all_inert_ws a ha) (all_inert_ws b hb)
  rw [jsTrim_id _ hed, ← List.append_assoc]

/-- C9: sentinel restoration is unconditional: any input that textually
contains `\x00LINK_START` (resp. `\x00LINK_END`) — here surrounded by
arbitrary inert text, with no anchor tag anywhere — has that sequence
rewritten to `<` (resp. `>`) in the output, letting raw input forge the
chat platform's angle-bracket link syntax, as the concrete forgery
`"\x00LINK_STARTu|l\x00LINK_END"` ↦ `"<u|l>"` shows. -/
theorem C9_sentinel_forgery :
    (∀ a b : JStr, a.all inert = true → b.all inert = true →
        htmlToMrkdwn (a ++ linkStartSeq ++ b) = a ++ [60] ++ b) ∧
      (∀ a b : JStr, a.all inert = true → b.all inert = true →
        htmlToMrkdwn (a ++ linkEndSeq ++ b) = a ++ [62] ++ b) ∧
      htmlToMrkdwn (uc ("\x00LINK_STARTu|l\x00LINK_END")) = uc ("<u|l>") :=
  ⟨restore_forge_start, restore_forge_end, by decide⟩

theorem C9_sentinel_forgery_witness :
    htmlToMrkdwn (uc ("x") ++ linkStartSeq ++ uc ("y")) = uc ("x") ++ [60] ++ uc ("y") :=
  C9_sentinel_forgery.1 (uc ("x")) (uc ("y")) (by decide) (by decide)

/-! ## C6: inline bold/italic/strikethrough tags -/

/-- Content safe between a single pair of inline tags for the general
statements: no `<`, `&`, NUL or newline (whitespace and any other text is
allowed). -/
def contentOk (c : Nat) : Bool := !(c == 60 || c == 38 || c == 0 || c == 10)

theorem all_contentOk_no60 (a : JStr) (h : a.all contentOk = true) : 60 ∉ a := by
  intro hm
  exact absurd (List.all_eq_true.mp h 60 hm) (by decide)

theorem all_contentOk_no38 (a : JStr) (h : a.all contentOk = true) : 38 ∉ a := by
  intro hm
  exact absurd (List.all_eq_true.mp h 38 hm) (by decide)

theorem all_contentOk_no0 (a : JStr) (h : a.all contentOk = true) : 0 ∉ a := by
  intro hm
  exact absurd (List.all_eq_true.mp h 0 hm) (by decide)

theorem all_contentOk_no10 (a : JStr) (h : a.all contentOk = true) : 10 ∉ a := by
  intro hm
  exact absurd (List.all_eq_true.mp h 10 hm) (by decide)

theorem headGuard_core_none (t : Nat) (core : JStr → Option (JStr × Nat)) (rest : JStr)
    (h : core rest = none) : headGuard t core (t :: rest) = none := by
  simp [headGuard, h]

theorem headGuard_core_some (t : Nat) (core : JStr → Option (JStr × Nat)) (rest rep : JStr)
    (n : Nat) (h : core rest = some (rep, n)) :
    headGuard t core (t :: rest) = some (rep, n + 1) := by
  simp [headGuard, h]

theorem brCore_ne1 (c1 : Nat) (r : JStr) (h : ciEq 98 c1 = false) :
    brCore (c1 :: r) = none := by
  rcases r with _ | ⟨c2, r2⟩ <;> simp [brCore, h]

theorem brCore_ne2 (c1 c2 : Nat) (r : JStr) (h : ciEq 114 c2 = false) :
    brCore (c1 :: c2 :: r) = none := by
  simp [brCore, h]

theorem ppCore_ne1 (c0 : Nat) (r : JStr) (h : (c0 == 47) = false) :
    ppCore (c0 :: r) = none := by
  rcases r with _ | ⟨c1, _ | ⟨c2, r2⟩⟩ <;> simp [ppCore, h]

theorem ppCore_ne2 (c0 c1 : Nat) (r : JStr) (h : ciEq 112 c1 = false) :
    ppCore (c0 :: c1 :: r) = none := by
  rcases r with _ | ⟨c2, r2⟩ <;> simp [ppCore, h]

theorem pOpenCore_ne1 (c1 : Nat) (r : JStr) (h : ciEq 112 c1 = false) :
    pOpenCore (c1 :: r) = none := by
  simp [pOpenCore, h]

theorem pCloseCore_ne1 (c0 : Nat) (r : JStr) (h : (c0 == 47) = false) :
    pCloseCore (c0 :: r) = none := by
  rcases r with _ | ⟨c1, _ | ⟨c2, r2⟩⟩ <;> simp [pCloseCore, h]

theorem pCloseCore_ne2 (c0 c1 : Nat) (r : JStr) (h : ciEq 112 c1 = false) :
    pCloseCore (c0 :: c1 :: r) = none := by
  rcases r with _ | ⟨c2, r2⟩ <;> simp [pCloseCore, h]

theorem aCore_ne1 (c0 : Nat) (r : JStr) (h : ciEq 97 c0 = false) :
    aCore (c0 :: r) = none := by
  simp [aCore, h]

theorem liCore_ne1 (c1 : Nat) (r : JStr) (h : ciEq 108 c1 = false) :
    liCore (c1 :: r) = none := by
  rcases r with _ | ⟨c2, r2⟩ <;> simp [liCore, h]

theorem hCore_ne1 (c1 : Nat) (r : JStr) (h : ciEq 104 c1 = false) :
    hCore (c1 :: r) = none := by
  rcases r with _ | ⟨c2, r2⟩ <;> simp [hCore, h]

/-- A pipeline stage that matches neither the opening nor the closing
inline tag leaves `<k>content</k>`-shaped input unchanged. -/
theorem scan_tag_id (m : Matcher) (ht : HeadTrig m 60) (k : Nat) (a : JStr)
    (h60a : 60 ∉ a) (hk : k ≠ 60)
    (h1 : m (60 :: k :: 62 :: (a ++ (60 :: 47 :: k :: 62 :: []))) = none)
    (h2 : m (60 :: 47 :: k :: 62 :: []) = none) :
    replaceScan m (60 :: k :: 62 :: (a ++ (60 :: 47 :: k :: 62 :: []))) =
      60 :: k :: 62 :: (a ++ (60 :: 47 :: k :: 62 :: [])) := by
  rw [replaceScan_cons_none _ _ _ h1,
      replaceScan_cons_none _ _ _ (ht k _ hk),
      replaceScan_cons_none _ _ _ (ht 62 _ (by omega)),
      scan_skip _ 60 ht a _ h60a,
      replaceScan_cons_none _ _ _ h2,
      replaceScan_cons_none _ _ _ (ht 47 _ (by omega)),
      replaceScan_cons_none _ _ _ (ht k _ hk),
      replaceScan_cons_none _ _ _ (ht 62 _ (by omega)),
      replaceScan_nil]

/-- The stage whose keyword list recognises `k` converts `<k>content</k>`
into the delimited content. -/
theorem scan_inline_tag (kws : List JStr) (d k : Nat) (a : JStr)
    (hk : k ≠ 60) (h60a : 60 ∉ a)
    (hopen : inlineCore kws d (k :: 62 :: (a ++ (60 :: 47 :: k :: 62 :: []))) =
      some ([d], 2))
    (hclose : inlineCore kws d (47 :: k :: 62 :: []) = some ([d], 3)) :
    replaceScan (headGuard 60 (inlineCore kws d))
        (60 :: k :: 62 :: (a ++ (60 :: 47 :: k :: 62 :: []))) =
      d :: (a ++ [d]) := by
  rw [replaceScan_cons_some _ _ _ _ _ (headGuard_core_some 60 _ _ _ _ hopen)]
  rw [show (2 + 1 - 1) = 2 from rfl]
  rw [show List.drop 2 (k :: 62 :: (a ++ (60 :: 47 :: k :: 62 :: []))) =
        a ++ (60 :: 47 :: k :: 62 :: []) from rfl]
  rw [scan_skip _ 60 (headGuard_trig 60 _) a _ h60a]
  rw [replaceScan_cons_some _ _ _ _ _ (headGuard_core_some 60 _ _ _ _ hclose)]
  rw [show (3 + 1 - 1) = 3 from rfl]
  rw [show List.drop 3 (47 :: k :: 62 :: ([] : JStr)) = [] from rfl]
  rw [replaceScan_nil]
  simp

theorem not_mem_delim (x d : Nat) (a : JStr) (hxd : x ≠ d) (hxa : x ∉ a) :
    x ∉ d :: (a ++ [d]) := by
  intro hm
  rcases List.mem_cons.mp hm with h | h
  · exact hxd h
  · rcases List.mem_append.mp h with h2 | h2
    · exact hxa h2
    · simp only [List.mem_singleton] at h2
      exact hxd h2

theorem noEdgeWs_delim (d : Nat) (hd : jsWs d = false) (a : JStr) :
    noEdgeWs (d :: (a ++ [d])) = true := by
  unfold noEdgeWs
  rw [Bool.and_eq_true]
  constructor
  · simpa [noWsHead] using hd
  · rw [show ((d :: (a ++ [d])) : JStr).reverse = d :: (a.reverse ++ [d]) by simp]
    simpa [noWsHead] using hd

/-- `<b>a</b>` converts to `*a*` for any clean content `a`. -/
theorem convert_bold (a : JStr) (ha : a.all contentOk = true) :
    htmlToMrkdwn ([60, 98, 62] ++ a ++ [60, 47, 98, 62]) = [42] ++ a ++ [42] := by
  have h60a := all_contentOk_no60 a ha
  rw [show [60, 98, 62] ++ a ++ [60, 47, 98, 62] =
      60 :: 98 :: 62 :: (a ++ (60 :: 47 :: 98 :: 62 :: [])) by simp]
  simp only [htmlToMrkdwn]
  rw [if_neg (by simp)]
  rw [scan_tag_id matchBr matchBr_trig 98 a h60a (by omega)
      (headGuard_core_none 60 _ _ (brCore_ne2 98 62 _ (by decide)))
      (headGuard_core_none 60 _ _ (brCore_ne1 47 _ (by decide)))]
  rw [scan_tag_id matchPPair matchPPair_trig 98 a h60a (by omega)
      (headGuard_core_none 60 _ _ (ppCore_ne1 98 _ (by decide)))
      (headGuard_core_none 60 _ _ (ppCore_ne2 47 98 _ (by decide)))]
  rw [scan_tag_id matchPOpen matchPOpen_trig 98 a h60a (by omega)
      (headGuard_core_none 60 _ _ (pOpenCore_ne1 98 _ (by decide)))
      (headGuard_core_none 60 _ _ (pOpenCore_ne1 47 _ (by decide)))]
  rw [scan_tag_id matchPClose matchPClose_trig 98 a h60a (by omega)
      (headGuard_core_none 60 _ _ (pCloseCore_ne1 98 _ (by decide)))
      (headGuard_core_none 60 _ _ (pCloseCore_ne2 47 98 _ (by decide)))]
  rw [scan_tag_id matchAnchor matchAnchor_trig 98 a h60a (by omega)
      (headGuard_core_none 60 _ _ (aCore_ne1 98 _ (by decide)))
      (headGuard_core_none 60 _ _ (aCore_ne1 47 _ (by decide)))]
  rw [show replaceScan matchBold (60 :: 98 :: 62 :: (a ++ (60 :: 47 :: 98 :: 62 :: []))) =
        42 :: (a ++ [42]) from
    scan_inline_tag [[98], [115, 116, 114, 111, 110, 103]] 42 98 a (by omega) h60a
      (by simp [inlineCore, inlineKw, ciPref, inlineTail,
        show ciEq 98 98 = true from by decide])
      (by decide)]
  have h60J : 60 ∉ (42 : Nat) :: (a ++ [42]) := not_mem_delim 60 42 a (by omega) h60a
  rw [scan_id _ 60 matchItalic_trig _ h60J, scan_id _ 60 matchStrike_trig _ h60J,
      scan_id _ 60 matchLi_trig _ h60J, scan_id _ 60 matchUlOl_trig _ h60J,
      scan_id _ 60 matchH_trig _ h60J, scan_id _ 60 matchStrip_trig _ h60J]
  have h0J : 0 ∉ (42 : Nat) :: (a ++ [42]) :=
    not_mem_delim 0 42 a (by omega) (all_contentOk_no0 a ha)
  rw [scan_id _ 0 matchLinkStart_trig _ h0J, scan_id _ 0 matchLinkEnd_trig _ h0J]
  rw [decode_id _ (not_mem_delim 38 42 a (by omega) (all_contentOk_no38 a ha))]
  rw [collapse_id _ (hasTriple_of_no10 _
    (not_mem_delim 10 42 a (by omega) (all_contentOk_no10 a ha)))]
  rw [jsTrim_id _ (noEdgeWs_delim 42 (by decide) a)]
  simp

/-- `<i>a</i>` converts to `_a_` for any clean content `a`. -/
theorem convert_italic (a : JStr) (ha : a.all contentOk = true) :
    htmlToMrkdwn ([60, 105, 62] ++ a ++ [60, 47, 105, 62]) = [95] ++ a ++ [95] := by
  have h60a := all_contentOk_no60 a ha
  rw [show [60, 105, 62] ++ a ++ [60, 47, 105, 62] =
      60 :: 105 :: 62 :: (a ++ (60 :: 47 :: 105 :: 62 :: [])) by simp]
  simp only [htmlToMrkdwn]
  rw [if_neg (by simp)]
  rw [scan_tag_id matchBr matchBr_trig 105 a h60a (by omega)
      (headGuard_core_none 60 _ _ (brCore_ne2 105 62 _ (by decide)))
      (headGuard_core_none 60 _ _ (brCore_ne1 47 _ (by decide)))]
  rw [scan_tag_id matchPPair matchPPair_trig 105 a h60a (by omega)
      (headGuard_core_none 60 _ _ (ppCore_ne1 105 _ (by decide)))
      (headGuard_core_none 60 _ _ (ppCore_ne2 47 105 _ (by decide)))]
  rw [scan_tag_id matchPOpen matchPOpen_trig 105 a h60a (by omega)
      (headGuard_core_none 60 _ _ (pOpenCore_ne1 105 _ (by decide)))
      (headGuard_core_none 60 _ _ (pOpenCore_ne1 47 _ (by decide)))]
  rw [scan_tag_id matchPClose matchPClose_trig 105 a h60a (by omega)
      (headGuard_core_none 60 _ _ (pCloseCore_ne1 105 _ (by decide)))
      (headGuard_core_none 60 _ _ (pCloseCore_ne2 47 105 _ (by decide)))]
  rw [scan_tag_id matchAnchor matchAnchor_trig 105 a h60a (by omega)
      (headGuard_core_none 60 _ _ (aCore_ne1 105 _ (by decide)))
      (headGuard_core_none 60 _ _ (aCore_ne1 47 _ (by decide)))]
  rw [scan_tag_id matchBold matchBold_trig 105 a h60a (by omega)
      (headGuard_core_none 60 _ _ (by
        simp [inlineCore, inlineKw, ciPref, inlineTail,
          show ciEq 98 105 = false from by decide,
          show ciEq 115 105 = false from by decide]))
      (by decide)]
  rw [show replaceScan matchItalic (60 :: 105 :: 62 :: (a ++ (60 :: 47 :: 105 :: 62 :: []))) =
        95 :: (a ++ [95]) from
    scan_inline_tag [[105], [101, 109]] 95 105 a (by omega) h60a
      (by simp [inlineCore, inlineKw, ciPref, inlineTail,
        show ciEq 105 105 = true from by decide])
      (by decide)]
  have h60J : 60 ∉ (95 : Nat) :: (a ++ [95]) := not_mem_delim 60 95 a (by omega) h60a
  rw [scan_id _ 60 matchStrike_trig _ h60J,
      scan_id _ 60 matchLi_trig _ h60J, scan_id _ 60 matchUlOl_trig _ h60J,
      scan_id _ 60 matchH_trig _ h60J, scan_id _ 60 matchStrip_trig _ h60J]
  have h0J : 0 ∉ (95 : Nat) :: (a ++ [95]) :=
    not_mem_delim 0 95 a (by omega) (all_contentOk_no0 a ha)
  rw [scan_id _ 0 matchLinkStart_trig _ h0J, scan_id _ 0 matchLinkEnd_trig _ h0J]
  rw [decode_id _ (not_mem_delim 38 95 a (by omega) (all_contentOk_no38 a ha))]
  rw [collapse_id _ (hasTriple_of_no10 _
    (not_mem_delim 10 95 a (by omega) (all_contentOk_no10 a ha)))]
  rw [jsTrim_id _ (noEdgeWs_delim 95 (by decide) a)]
  simp

/-- `<s>a</s>` converts to `~a~` for any clean content `a`. -/
theorem convert_strike (a : JStr) (ha : a.all contentOk = true) :
    htmlToMrkdwn ([60, 115, 62] ++ a ++ [60, 47, 115, 62]) = [126] ++ a ++ [126] := by
  have h60a := all_contentOk_no60 a ha
  rw [show [60, 115, 62] ++ a ++ [60, 47, 115, 62] =
      60 :: 115 :: 62 :: (a ++ (60 :: 47 :: 115 :: 62 :: [])) by simp]
  simp only [htmlToMrkdwn]
  rw [if_neg (by simp)]
  rw [scan_tag_id matchBr matchBr_trig 115 a h60a (by omega)
      (headGuard_core_none 60 _ _ (brCore_ne2 115 62 _ (by decide)))
      (headGuard_core_none 60 _ _ (brCore_ne1 47 _ (by decide)))]
  rw [scan_tag_id matchPPair matchPPair_trig 115 a h60a (by omega)
      (headGuard_core_none 60 _ _ (ppCore_ne1 115 _ (by decide)))
      (headGuard_core_none 60 _ _ (ppCore_ne2 47 115 _ (by decide)))]
  rw [scan_tag_id matchPOpen matchPOpen_trig 115 a h60a (by omega)
      (headGuard_core_none 60 _ _ (pOpenCore_ne1 115 _ (by decide)))
      (headGuard_core_none 60 _ _ (pOpenCore_ne1 47 _ (by decide)))]
  rw [scan_tag_id matchPClose matchPClose_trig 115 a h60a (by omega)
      (headGuard_core_none 60 _ _ (pCloseCore_ne1 115 _ (by decide)))
      (headGuard_core_none 60 _ _ (pCloseCore_ne2 47 115 _ (by decide)))]
  rw [scan_tag_id matchAnchor matchAnchor_trig 115 a h60a (by omega)
      (headGuard_core_none 60 _ _ (aCore_ne1 115 _ (by decide)))
      (headGuard_core_none 60 _ _ (aCore_ne1 47 _ (by decide)))]
  rw [scan_tag_id matchBold matchBold_trig 115 a h60a (by omega)
      (headGuard_core_none 60 _ _ (by
        simp [inlineCore, inlineKw, ciPref, inlineTail,
          show ciEq 98 115 = false from by decide,
          show ciEq 115 115 = true from by decide,
          show ciEq 116 62 = false from by decide]))
      (by decide)]
  rw [scan_tag_id matchItalic matchItalic_trig 115 a h60a (by omega)
      (headGuard_core_none 60 _ _ (by
        simp [inlineCore, inlineKw, ciPref, inlineTail,
          show ciEq 105 115 = false from by decide,
          show ciEq 101 115 = false from by decide]))
      (by decide)]
  rw [show replaceScan matchStrike (60 :: 115 :: 62 :: (a ++ (60 :: 47 :: 115 :: 62 :: []))) =
        126 :: (a ++ [126]) from
    scan_inline_tag [[115], [115, 116, 114, 105, 107, 101], [100, 101, 108]] 126 115 a
      (by omega) h60a
      (by simp [inlineCore, inlineKw, ciPref, inlineTail,
        show ciEq 115 115 = true from by decide])
      (by decide)]
  have h60J : 60 ∉ (126 : Nat) :: (a ++ [126]) := not_mem_delim 60 126 a (by omega) h60a
  rw [scan_id _ 60 matchLi_trig _ h60J, scan_id _ 60 matchUlOl_trig _ h60J,
      scan_id _ 60 matchH_trig _ h60J, scan_id _ 60 matchStrip_trig _ h60J]
  have h0J : 0 ∉ (126 : Nat) :: (a ++ [126]) :=
    not_mem_delim 0 126 a (by omega) (all_contentOk_no0 a ha)
  rw [scan_id _ 0 matchLinkStart_trig _ h0J, scan_id _ 0 matchLinkEnd_trig _ h0J]
  rw [decode_id _ (not_mem_delim 38 126 a (by omega) (all_contentOk_no38 a ha))]
  rw [collapse_id _ (hasTriple_of_no10 _
    (not_mem_delim 10 126 a (by omega) (all_contentOk_no10 a ha)))]
  rw [jsTrim_id _ (noEdgeWs_delim 126 (by decide) a)]
  simp

/-- C6: each opening or closing bold tag (`<b>`, `<strong>`) becomes a
single `*`, each italic tag (`<i>`, `<em>`) a single `_`, each
strikethrough tag (`<s>`, `<strike>`, `<del>`) a single `~`; matching is
case-insensitive and attributes on the opening tag are ignored.  The
general statement covers arbitrary clean content between the base tags;
the concrete conjuncts cover the spec's examples, the synonyms, uppercase
tags and attributed tags. -/
theorem C6_inline_tags :
    (∀ a : JStr, a.all contentOk = true →
        htmlToMrkdwn (uc ("<b>") ++ a ++ uc ("</b>")) = uc ("*") ++ a ++ uc ("*") ∧
        htmlToMrkdwn (uc ("<i>") ++ a ++ uc ("</i>")) = uc ("_") ++ a ++ uc ("_") ∧
        htmlToMrkdwn (uc ("<s>") ++ a ++ uc ("</s>")) = uc ("~") ++ a ++ uc ("~")) ∧
      htmlToMrkdwn (uc ("<i>a</i>")) = uc ("_a_") ∧
      htmlToMrkdwn (uc ("<b>a</b>")) = uc ("*a*") ∧
      htmlToMrkdwn (uc ("<s>a</s>")) = uc ("~a~") ∧
      htmlToMrkdwn (uc ("<B CLASS=\"x\">a</B>")) = uc ("*a*") ∧
      htmlToMrkdwn (uc ("<STRONG>a</STRONG>")) = uc ("*a*") ∧
      htmlToMrkdwn (uc ("<em Class=y>a</em>")) = uc ("_a_") ∧
      htmlToMrkdwn (uc ("<EM>a</EM>")) = uc ("_a_") ∧
      htmlToMrkdwn (uc ("<strike>a</strike>")) = uc ("~a~") ∧
      htmlToMrkdwn (uc ("<del DATA=1>a</DEL>")) = uc ("~a~") := by
  refine ⟨fun a ha => ⟨?_, ?_, ?_⟩, by decide, by decide, by decide, by decide,
    by decide, by decide, by decide, by decide, by decide⟩
  · exact convert_bold a ha
  · exact convert_italic a ha
  · exact convert_strike a ha

theorem C6_inline_tags_witness :
    htmlToMrkdwn (uc ("<b>") ++ uc ("bold text") ++ uc ("</b>")) =
      uc ("*") ++ uc ("bold text") ++ uc ("*") ∧
    htmlToMrkdwn (uc ("<i>") ++ uc ("x") ++ uc ("</i>")) =
      uc ("_") ++ uc ("x") ++ uc ("_") ∧
    htmlToMrkdwn (uc ("<s>") ++ uc ("x") ++ uc ("</s>")) =
      uc ("~") ++ uc ("x") ++ uc ("~") := by
  refine ⟨(C6_inline_tags.1 (uc ("bold text")) (by decide)).1,
    (C6_inline_tags.1 (uc ("x")) (by decide)).2.1,
    (C6_inline_tags.1 (uc ("x")) (by decide)).2.2⟩

/-! ## C5: paragraphs -/

theorem hasTriple_append_left (a : JStr) (t : JStr) (h : 10 ∉ a) :
    hasTriple (a ++ t) = hasTriple t := by
  induction a with
  | nil => rfl
  | cons x a ih =>
    have hx : x ≠ 10 := fun hh => h (by simp [hh])
    rw [List.cons_append, hasTriple_cons_ne x _ hx]
    exact ih (fun hh => h (List.mem_cons_of_mem _ hh))

theorem hasTriple_pshape (b : JStr) (hb10 : 10 ∉ b) (hbne : b ≠ []) :
    hasTriple (10 :: 10 :: (b ++ (10 :: 10 :: []))) = false := by
  cases b with
  | nil => exact absurd rfl hbne
  | cons b0 b1 =>
    have hb0 : b0 ≠ 10 := fun h => hb10 (by simp [h])
    have hb1 : 10 ∉ b1 := fun h => hb10 (List.mem_cons_of_mem _ h)
    rw [show ((b0 :: b1) ++ (10 :: 10 :: []) : JStr) = b0 :: (b1 ++ (10 :: 10 :: [])) from rfl]
    rw [hasTriple_cons3]
    simp only [show (b0 == 10) = false from by simpa using hb0, Bool.and_false,
      Bool.false_and, Bool.false_or]
    rw [hasTriple_cons2_ne 10 b0 _ hb0, hasTriple_cons_ne b0 _ hb0,
      hasTriple_append_left b1 _ hb1]
    rfl

theorem jsTrim_pshape (a b : JStr) (ha : a ≠ []) (hb : b ≠ [])
    (hna : noWsHead a = true) (hnb : noWsHead b.reverse = true) :
    jsTrim (a ++ (10 :: 10 :: (b ++ (10 :: 10 :: [])))) = a ++ (10 :: 10 :: b) := by
  unfold jsTrim
  have h1 : (a ++ (10 :: 10 :: (b ++ (10 :: 10 :: [])))).dropWhile jsWs =
      a ++ (10 :: 10 :: (b ++ (10 :: 10 :: []))) := by
    cases a with
    | nil => exact absurd rfl ha
    | cons c r =>
      simp only [noWsHead, Bool.not_eq_true'] at hna
      rw [List.cons_append, List.dropWhile_cons, if_neg (by simp [hna])]
  rw [h1]
  have h2 : (a ++ (10 :: 10 :: (b ++ (10 :: 10 :: [])))).reverse =
      10 :: 10 :: (b.reverse ++ (10 :: 10 :: a.reverse)) := by
    simp
  rw [h2]
  have h3 : (10 :: 10 :: (b.reverse ++ (10 :: 10 :: a.reverse)) : JStr).dropWhile jsWs =
      b.reverse ++ (10 :: 10 :: a.reverse) := by
    rw [List.dropWhile_cons, if_pos (by decide), List.dropWhile_cons, if_pos (by decide)]
    cases hbr : b.reverse with
    | nil => exact absurd (by simpa using hbr) hb
    | cons c r =>
      rw [hbr] at hnb
      simp only [noWsHead, Bool.not_eq_true'] at hnb
      rw [List.cons_append, List.dropWhile_cons, if_neg (by simp [hnb])]
  rw [h3]
  simp

theorem not_mem_pshape (x : Nat) (a b : JStr) (hx : x ≠ 10) (ha : x ∉ a) (hb : x ∉ b) :
    x ∉ a ++ (10 :: 10 :: (b ++ (10 :: 10 :: []))) := by
  intro hm
  rcases List.mem_append.mp hm with h | h
  · exact ha h
  rcases List.mem_cons.mp h with h | h
  · exact hx h
  rcases List.mem_cons.mp h with h | h
  · exact hx h
  rcases List.mem_append.mp h with h | h
  · exact hb h
  · rcases List.mem_cons.mp h with h | h
    · exact hx h
    · rcases List.mem_cons.mp h with h | h
      · exact hx h
      · simp at h

/-- A pipeline stage that matches no `<p>`-related pattern leaves the
two-paragraph shape unchanged. -/
theorem scan_pshape_id (m : Matcher) (ht : HeadTrig m 60) (a b : JStr)
    (h60a : 60 ∉ a) (h60b : 60 ∉ b)
    (h1 : m (60 :: 112 :: 62 ::
      (a ++ (60 :: 47 :: 112 :: 62 :: (60 :: 112 :: 62 ::
        (b ++ (60 :: 47 :: 112 :: 62 :: [])))))) = none)
    (h2 : m (60 :: 47 :: 112 :: 62 :: (60 :: 112 :: 62 ::
      (b ++ (60 :: 47 :: 112 :: 62 :: [])))) = none)
    (h3 : m (60 :: 112 :: 62 :: (b ++ (60 :: 47 :: 112 :: 62 :: []))) = none)
    (h4 : m (60 :: 47 :: 112 :: 62 :: []) = none) :
    replaceScan m (60 :: 112 :: 62 ::
      (a ++ (60 :: 47 :: 112 :: 62 :: (60 :: 112 :: 62 ::
        (b ++ (60 :: 47 :: 112 :: 62 :: [])))))) =
    60 :: 112 :: 62 ::
      (a ++ (60 :: 47 :: 112 :: 62 :: (60 :: 112 :: 62 ::
        (b ++ (60 :: 47 :: 112 :: 62 :: []))))) := by
  rw [replaceScan_cons_none _ _ _ h1,
      replaceScan_cons_none _ _ _ (ht 112 _ (by omega)),
      replaceScan_cons_none _ _ _ (ht 62 _ (by omega)),
      scan_skip _ 60 ht a _ h60a,
      replaceScan_cons_none _ _ _ h2,
      replaceScan_cons_none _ _ _ (ht 47 _ (by omega)),
      replaceScan_cons_none _ _ _ (ht 112 _ (by omega)),
      replaceScan_cons_none _ _ _ (ht 62 _ (by omega)),
      replaceScan_cons_none _ _ _ h3,
      replaceScan_cons_none _ _ _ (ht 112 _ (by omega)),
      replaceScan_cons_none _ _ _ (ht 62 _ (by omega)),
      scan_skip _ 60 ht b _ h60b,
      replaceScan_cons_none _ _ _ h4,
      replaceScan_cons_none _ _ _ (ht 47 _ (by omega)),
      replaceScan_cons_none _ _ _ (ht 112 _ (by omega)),
      replaceScan_cons_none _ _ _ (ht 62 _ (by omega)),
      replaceScan_nil]

theorem matchPPair_core_none (rest : JStr) (h : ppCore rest = none) :
    matchPPair (60 :: rest) = none := headGuard_core_none 60 ppCore rest h

theorem matchPOpen_core_none (rest : JStr) (h : pOpenCore rest = none) :
    matchPOpen (60 :: rest) = none := headGuard_core_none 60 pOpenCore rest h

theorem matchPClose_core_none (rest : JStr) (h : pCloseCore rest = none) :
    matchPClose (60 :: rest) = none := headGuard_core_none 60 pCloseCore rest h

theorem matchBr_core_none (rest : JStr) (h : brCore rest = none) :
    matchBr (60 :: rest) = none := headGuard_core_none 60 brCore rest h

theorem matchAnchor_core_none (rest : JStr) (h : aCore rest = none) :
    matchAnchor (60 :: rest) = none := headGuard_core_none 60 aCore rest h

theorem matchBold_core_none (rest : JStr)
    (h : inlineCore [[98], [115, 116, 114, 111, 110, 103]] 42 rest = none) :
    matchBold (60 :: rest) = none := headGuard_core_none 60 _ rest h

theorem matchItalic_core_none (rest : JStr)
    (h : inlineCore [[105], [101, 109]] 95 rest = none) :
    matchItalic (60 :: rest) = none := headGuard_core_none 60 _ rest h

theorem matchStrike_core_none (rest : JStr)
    (h : inlineCore [[115], [115, 116, 114, 105, 107, 101], [100, 101, 108]] 126 rest = none) :
    matchStrike (60 :: rest) = none := headGuard_core_none 60 _ rest h

theorem matchLi_core_none (rest : JStr) (h : liCore rest = none) :
    matchLi (60 :: rest) = none := headGuard_core_none 60 liCore rest h

theorem matchUlOl_core_none (rest : JStr)
    (h : inlineCore [[117, 108], [111, 108]] 10 rest = none) :
    matchUlOl (60 :: rest) = none := headGuard_core_none 60 _ rest h

theorem matchH_core_none (rest : JStr) (h : hCore rest = none) :
    matchH (60 :: rest) = none := headGuard_core_none 60 hCore rest h

theorem matchStrip_core_none (rest : JStr) (h : stripCore rest = none) :
    matchStrip (60 :: rest) = none := headGuard_core_none 60 stripCore rest h

/-- `<p>a</p><p>b</p>` converts to `a\n\nb` for clean nonempty paragraph
contents with non-whitespace edges. -/
theorem convert_paragraphs (a b : JStr)
    (ha : a.all contentOk = true) (hb : b.all contentOk = true)
    (hane : a ≠ []) (hbne : b ≠ [])
    (hea : noEdgeWs a = true) (heb : noEdgeWs b = true) :
    htmlToMrkdwn ([60, 112, 62] ++ a ++ [60, 47, 112, 62, 60, 112, 62] ++ b ++
      [60, 47, 112, 62]) = a ++ [10, 10] ++ b := by
  have h60a := all_contentOk_no60 a ha
  have h60b := all_contentOk_no60 b hb
  rw [show [60, 112, 62] ++ a ++ [60, 47, 112, 62, 60, 112, 62] ++ b ++ [60, 47, 112, 62] =
      60 :: 112 :: 62 ::
        (a ++ (60 :: 47 :: 112 :: 62 :: (60 :: 112 :: 62 ::
          (b ++ (60 :: 47 :: 112 :: 62 :: []))))) by simp]
  simp only [htmlToMrkdwn]
  rw [if_neg (by simp)]
  -- stage 1: br is the identity
  rw [scan_pshape_id matchBr matchBr_trig a b h60a h60b
      (headGuard_core_none 60 _ _ (brCore_ne1 112 _ (by decide)))
      (headGuard_core_none 60 _ _ (brCore_ne1 47 _ (by decide)))
      (headGuard_core_none 60 _ _ (brCore_ne1 112 _ (by decide)))
      (by decide)]
  -- stage 2: `</p>\s*<p[^>]*>` matches at the junction
  have hppM : matchPPair (60 :: 47 :: 112 :: 62 :: (60 :: 112 :: 62 ::
      (b ++ (60 :: 47 :: 112 :: 62 :: [])))) = some ([10, 10], 6 + 1) :=
    headGuard_core_some 60 _ _ _ _ (by
      simp [ppCore, List.takeWhile_cons, List.dropWhile_cons,
        show jsWs 60 = false from by decide,
        show ciEq 112 112 = true from by decide,
        show ((62 : Nat) != 62) = false from by decide])
  rw [replaceScan_cons_none _ _ _
        (matchPPair_core_none _ (ppCore_ne1 112 _ (by decide))),
      replaceScan_cons_none _ _ _ (matchPPair_trig 112 _ (by omega)),
      replaceScan_cons_none _ _ _ (matchPPair_trig 62 _ (by omega)),
      scan_skip _ 60 matchPPair_trig a _ h60a,
      replaceScan_cons_some _ _ _ _ _ hppM,
      show (6 + 1 - 1 : Nat) = 6 from rfl,
      show List.drop 6 (47 :: 112 :: 62 :: (60 :: 112 :: 62 ::
        (b ++ (60 :: 47 :: 112 :: 62 :: [])))) =
        b ++ (60 :: 47 :: 112 :: 62 :: []) from rfl,
      scan_skip _ 60 matchPPair_trig b _ h60b,
      replaceScan_cons_none _ _ _
        (by decide : matchPPair (60 :: 47 :: 112 :: 62 :: []) = none),
      replaceScan_cons_none _ _ _ (matchPPair_trig 47 _ (by omega)),
      replaceScan_cons_none _ _ _ (matchPPair_trig 112 _ (by omega)),
      replaceScan_cons_none _ _ _ (matchPPair_trig 62 _ (by omega)),
      replaceScan_nil]
  -- stage 3: `<p[^>]*>` deletes the remaining opening tag
  have hpo : matchPOpen (60 :: 112 :: 62 ::
      (a ++ ([10, 10] ++ (b ++ (60 :: 47 :: 112 :: 62 :: []))))) = some ([], 2 + 1) :=
    headGuard_core_some 60 _ _ _ _ (by
      simp [pOpenCore, List.takeWhile_cons, List.dropWhile_cons,
        show ciEq 112 112 = true from by decide,
        show ((62 : Nat) != 62) = false from by decide])
  rw [replaceScan_cons_some _ _ _ _ _ hpo,
      show (2 + 1 - 1 : Nat) = 2 from rfl,
      show List.drop 2 (112 :: 62 ::
        (a ++ ([10, 10] ++ (b ++ (60 :: 47 :: 112 :: 62 :: []))))) =
        a ++ ([10, 10] ++ (b ++ (60 :: 47 :: 112 :: 62 :: []))) from rfl,
      scan_skip _ 60 matchPOpen_trig a _ h60a,
      show ([10, 10] : JStr) ++ (b ++ (60 :: 47 :: 112 :: 62 :: [])) =
        10 :: 10 :: (b ++ (60 :: 47 :: 112 :: 62 :: [])) from rfl,
      replaceScan_cons_none _ _ _ (matchPOpen_trig 10 _ (by omega)),
      replaceScan_cons_none _ _ _ (matchPOpen_trig 10 _ (by omega)),
      scan_skip _ 60 matchPOpen_trig b _ h60b,
      replaceScan_cons_none _ _ _
        (by decide : matchPOpen (60 :: 47 :: 112 :: 62 :: []) = none),
      replaceScan_cons_none _ _ _ (matchPOpen_trig 47 _ (by omega)),
      replaceScan_cons_none _ _ _ (matchPOpen_trig 112 _ (by omega)),
      replaceScan_cons_none _ _ _ (matchPOpen_trig 62 _ (by omega)),
      replaceScan_nil]
  -- stage 4: the remaining `</p>` becomes a blank line
  rw [show ([] : JStr) ++ (a ++ (10 :: 10 :: (b ++ (60 :: 47 :: 112 :: 62 :: [])))) =
        a ++ (10 :: 10 :: (b ++ (60 :: 47 :: 112 :: 62 :: []))) from by simp,
      scan_skip _ 60 matchPClose_trig a _ h60a,
      replaceScan_cons_none _ _ _ (matchPClose_trig 10 _ (by omega)),
      replaceScan_cons_none _ _ _ (matchPClose_trig 10 _ (by omega)),
      scan_skip _ 60 matchPClose_trig b _ h60b,
      replaceScan_cons_some _ _ _ _ _
        (by decide : matchPClose (60 :: 47 :: 112 :: 62 :: []) = some ([10, 10], 4)),
      show (4 - 1 : Nat) = 3 from rfl,
      show List.drop 3 (47 :: 112 :: 62 :: ([] : JStr)) = [] from rfl,
      replaceScan_nil,
      show ([10, 10] : JStr) ++ [] = 10 :: 10 :: [] from rfl]
  -- remaining stages are the identity
  have h60T : 60 ∉ a ++ (10 :: 10 :: (b ++ (10 :: 10 :: []))) :=
    not_mem_pshape 60 a b (by omega) h60a h60b
  rw [scan_id _ 60 matchAnchor_trig _ h60T, scan_id _ 60 matchBold_trig _ h60T,
      scan_id _ 60 matchItalic_trig _ h60T, scan_id _ 60 matchStrike_trig _ h60T,
      scan_id _ 60 matchLi_trig _ h60T, scan_id _ 60 matchUlOl_trig _ h60T,
      scan_id _ 60 matchH_trig _ h60T, scan_id _ 60 matchStrip_trig _ h60T]
  have h0T : 0 ∉ a ++ (10 :: 10 :: (b ++ (10 :: 10 :: []))) :=
    not_mem_pshape 0 a b (by omega) (all_contentOk_no0 a ha) (all_contentOk_no0 b hb)
  rw [scan_id _ 0 matchLinkStart_trig _ h0T, scan_id _ 0 matchLinkEnd_trig _ h0T]
  rw [decode_id _ (not_mem_pshape 38 a b (by omega)
    (all_contentOk_no38 a ha) (all_contentOk_no38 b hb))]
  have hT : hasTriple (a ++ (10 :: 10 :: (b ++ (10 :: 10 :: [])))) = false := by
    rw [hasTriple_append_left a _ (all_contentOk_no10 a ha)]
    exact hasTriple_pshape b (all_contentOk_no10 b hb) hbne
  rw [collapse_id _ hT]
  have hna : noWsHead a = true := by
    have h2 := hea
    unfold noEdgeWs at h2
    rw [Bool.and_eq_true] at h2
    exact h2.1
  have hnb : noWsHead b.reverse = true := by
    have h2 := heb
    unfold noEdgeWs at h2
    rw [Bool.and_eq_true] at h2
    exact h2.2
  rw [jsTrim_pshape a b hane hbne hna hnb]
  simp

/-- C5: paragraph boundaries always yield a blank-line separation of
exactly two newline characters: `</p>` followed by `<p>` becomes one blank
line (general theorem for clean nonempty contents), remaining `<p>` tags
are deleted and remaining `</p>` tags become a blank line (visible in the
trailing-text conjunct); `convert "<p>One</p><p>Two</p>"` is
`"One\n\nTwo"`, and whitespace between the paragraphs is absorbed. -/
theorem C5_paragraphs :
    (∀ a b : JStr, a.all contentOk = true → b.all contentOk = true →
        a ≠ [] → b ≠ [] → noEdgeWs a = true → noEdgeWs b = true →
        htmlToMrkdwn (uc ("<p>") ++ a ++ uc ("</p><p>") ++ b ++ uc ("</p>")) =
          a ++ uc ("\n\n") ++ b) ∧
      htmlToMrkdwn (uc ("<p>One</p><p>Two</p>")) = uc ("One\n\nTwo") ∧
      htmlToMrkdwn (uc ("<p>One</p>")) = uc ("One") ∧
      htmlToMrkdwn (uc ("<p>a</p>rest")) = uc ("a\n\nrest") ∧
      htmlToMrkdwn (uc ("<p>a</p> \n <p>b</p>")) = uc ("a\n\nb") := by
  refine ⟨fun a b ha hb hane hbne hea heb => ?_, by decide, by decide, by decide, by decide⟩
  rw [show uc ("<p>") = [60, 112, 62] from rfl,
      show uc ("</p><p>") = [60, 47, 112, 62, 60, 112, 62] from rfl,
      show uc ("</p>") = [60, 47, 112, 62] from rfl,
      show uc ("\n\n") = [10, 10] from rfl]
  exact convert_paragraphs a b ha hb hane hbne hea heb

theorem C5_paragraphs_witness :
    htmlToMrkdwn (uc ("<p>") ++ uc ("One") ++ uc ("</p><p>") ++ uc ("Two") ++ uc ("</p>")) =
      uc ("One") ++ uc ("\n\n") ++ uc ("Two") :=
  C5_paragraphs.1 (uc ("One")) (uc ("Two")) (by decide) (by decide)
    (by decide) (by decide) (by decide) (by decide)

/-! ## C4: anchors -/

/-- URL content safe for the general anchor statement: no `"`, `>`, `<`,
`&`, `=`, NUL or newline (the `=` exclusion keeps `href="` unambiguous). -/
def urlOk (c : Nat) : Bool :=
  !(c == 60 || c == 62 || c == 38 || c == 34 || c == 61 || c == 0 || c == 10)

theorem urlOk_mem_ne (u : JStr) (hu : u.all urlOk = true) (x : Nat)
    (hx : urlOk x = false) : x ∉ u := by
  intro hm
  rw [List.all_eq_true.mp hu x hm] at hx
  exact absurd hx (by simp)

theorem urlOk_mem_ne62 (u : JStr) (hu : u.all urlOk = true) :
    ∀ c ∈ u, (c != 62) = true := by
  intro c hc
  have h2 := List.all_eq_true.mp hu c hc
  by_cases h62 : c = 62
  · subst h62; exact absurd h2 (by decide)
  · simpa using h62

theorem urlOk_mem_ne34 (u : JStr) (hu : u.all urlOk = true) :
    ∀ c ∈ u, (c != 34) = true := by
  intro c hc
  have h2 := List.all_eq_true.mp hu c hc
  by_cases h34 : c = 34
  · subst h34; exact absurd h2 (by decide)
  · simpa using h34

theorem contentOk_mem_ne (u : JStr) (hu : u.all contentOk = true) (x : Nat)
    (hx : contentOk x = false) : x ∉ u := by
  intro hm
  rw [List.all_eq_true.mp hu x hm] at hx
  exact absurd hx (by simp)

theorem closeA_ne (c : Nat) (r : JStr) (hc : c ≠ 60) : closeA (c :: r) = none := by
  have hb : (c == 60) = false := by simpa using hc
  simp [closeA, ciPref, ciEq, hb]

/-- The lazy capture before a closing pattern: content with no potential
match start, then a position where the closing test fires. -/
theorem findSub_append (test : JStr → Option Nat)
    (htrig : ∀ c r, c ≠ 60 → test (c :: r) = none)
    (pre post : JStr) (hpre : 60 ∉ pre) (k : Nat)
    (hpost : test post = some k) (hpostne : post ≠ []) :
    findSub test (pre ++ post) = some (pre, pre.length + k) := by
  induction pre with
  | nil =>
    cases post with
    | nil => exact absurd rfl hpostne
    | cons c rest =>
      simp only [List.nil_append, findSub, hpost, List.length_nil]
      rw [Nat.zero_add]
  | cons x pre ih =>
    have hx : x ≠ 60 := fun h => hpre (by simp [h])
    have ih2 := ih (fun h => hpre (List.mem_cons_of_mem _ h))
    rw [List.cons_append]
    simp only [findSub, htrig x _ hx, ih2, List.length_cons]
    rw [show pre.length + k + 1 = pre.length + 1 + k by omega]

/-- `href="` cannot match inside the URL region: every candidate start
within a `"`-free, `=`-free span followed by the closing `"` fails. -/
theorem href_fail (d t : JStr) (h61 : 61 ∉ d) (h34 : 34 ∉ d) :
    ciPref hrefPat (d ++ (34 :: t)) = none := by
  rcases d with _ | ⟨a, _ | ⟨b, _ | ⟨c, _ | ⟨e, _ | ⟨f, rest⟩⟩⟩⟩⟩
  · simp [hrefPat, ciPref, show ciEq 104 34 = false from by decide]
  · simp [hrefPat, ciPref, show ciEq 114 34 = false from by decide]
  · simp [hrefPat, ciPref, show ciEq 101 34 = false from by decide]
  · simp [hrefPat, ciPref, show ciEq 102 34 = false from by decide]
  · simp [hrefPat, ciPref, show ciEq 61 34 = false from by decide]
  · have hf : f ≠ 61 := fun h => h61 (by simp [h])
    have hfb : ciEq 61 f = false := by
      simp [ciEq]
      omega
    simp [hrefPat, ciPref, hfb]

/-- Greedy right-to-left candidate search: if every candidate above 1
fails, the search returns the candidate at 1. -/
theorem anchorTry_desc (r1 : JStr) (J : Nat)
    (h : ∀ j, 2 ≤ j → j ≤ J → anchorAt r1 j = none) (hJ : 1 ≤ J) :
    anchorTry r1 J = anchorAt r1 1 := by
  induction J with
  | zero => omega
  | succ J ih =>
    by_cases hJ1 : J = 0
    · subst hJ1
      cases ha : anchorAt r1 1 with
      | some res => simp [anchorTry, ha]
      | none => simp [anchorTry, ha]
    · have h2 : anchorAt r1 (J + 1) = none := h (J + 1) (by omega) (Nat.le_refl _)
      simp only [anchorTry, h2]
      exact ih (fun j hj hjJ => h j hj (by omega)) (by omega)

theorem anchorAt_one (url label : JStr)
    (hu : url.all urlOk = true) (hl : label.all contentOk = true) :
    anchorAt (32 :: 104 :: 114 :: 101 :: 102 :: 61 :: 34 ::
        (url ++ (34 :: 62 :: (label ++ (60 :: 47 :: 97 :: 62 :: []))))) 1 =
      some (linkStartSeq ++ url ++ [124] ++ label ++ linkEndSeq,
        url.length + label.length + 14) := by
  have h34url := urlOk_mem_ne34 url hu
  have h60label : 60 ∉ label := contentOk_mem_ne label hl 60 (by decide)
  have hci : ciPref hrefPat (104 :: 114 :: 101 :: 102 :: 61 :: 34 ::
      (url ++ (34 :: 62 :: (label ++ (60 :: 47 :: 97 :: 62 :: []))))) =
      some (url ++ (34 :: 62 :: (label ++ (60 :: 47 :: 97 :: 62 :: [])))) := by
    simp [hrefPat, ciPref, show ciEq 104 104 = true from by decide,
      show ciEq 114 114 = true from by decide, show ciEq 101 101 = true from by decide,
      show ciEq 102 102 = true from by decide, show ciEq 61 61 = true from by decide,
      show ciEq 34 34 = true from by decide]
  have htw : (url ++ (34 :: 62 :: (label ++ (60 :: 47 :: 97 :: 62 :: [])))).takeWhile
      (fun c => c != 34) = url := by
    rw [List.takeWhile_append_of_pos h34url]
    simp [List.takeWhile_cons]
  have hdw : (url ++ (34 :: 62 :: (label ++ (60 :: 47 :: 97 :: 62 :: [])))).dropWhile
      (fun c => c != 34) = 34 :: (62 :: (label ++ (60 :: 47 :: 97 :: 62 :: []))) := by
    rw [List.dropWhile_append_of_pos h34url]
    simp [List.dropWhile_cons]
  have hfs : findSub closeA (label ++ (60 :: 47 :: 97 :: 62 :: [])) =
      some (label, label.length + 4) :=
    findSub_append closeA (fun c r h => closeA_ne c r h) label
      (60 :: 47 :: 97 :: 62 :: []) h60label 4 (by decide) (by simp)
  simp [anchorAt, hci, htw, hdw, hfs, List.takeWhile_cons, List.dropWhile_cons] <;> omega

theorem matchAnchor_hit (url label : JStr)
    (hu : url.all urlOk = true) (hl : label.all contentOk = true) :
    matchAnchor (60 :: 97 :: 32 :: 104 :: 114 :: 101 :: 102 :: 61 :: 34 ::
        (url ++ (34 :: 62 :: (label ++ (60 :: 47 :: 97 :: 62 :: []))))) =
      some (linkStartSeq ++ url ++ [124] ++ label ++ linkEndSeq,
        url.length + label.length + 15) := by
  have h61url : 61 ∉ url := urlOk_mem_ne url hu 61 (by decide)
  have h34url : 34 ∉ url := urlOk_mem_ne url hu 34 (by decide)
  have h62url := urlOk_mem_ne62 url hu
  have hnone : ∀ j, 2 ≤ j → j ≤ url.length + 8 →
      anchorAt (32 :: 104 :: 114 :: 101 :: 102 :: 61 :: 34 ::
        (url ++ (34 :: 62 :: (label ++ (60 :: 47 :: 97 :: 62 :: []))))) j = none := by
    intro j h2 hJ
    have hci : ciPref hrefPat ((32 :: 104 :: 114 :: 101 :: 102 :: 61 :: 34 ::
        (url ++ (34 :: 62 :: (label ++ (60 :: 47 :: 97 :: 62 :: []))))).drop j) = none := by
      rcases j with _ | _ | _ | _ | _ | _ | _ | m
      · omega
      · omega
      · rw [show List.drop 2 (32 :: 104 :: 114 :: 101 :: 102 :: 61 :: 34 ::
            (url ++ (34 :: 62 :: (label ++ (60 :: 47 :: 97 :: 62 :: []))))) =
            114 :: 101 :: 102 :: 61 :: 34 ::
              (url ++ (34 :: 62 :: (label ++ (60 :: 47 :: 97 :: 62 :: [])))) from rfl]
        simp [hrefPat, ciPref, show ciEq 104 114 = false from by decide]
      · rw [show List.drop 3 (32 :: 104 :: 114 :: 101 :: 102 :: 61 :: 34 ::
            (url ++ (34 :: 62 :: (label ++ (60 :: 47 :: 97 :: 62 :: []))))) =
            101 :: 102 :: 61 :: 34 ::
              (url ++ (34 :: 62 :: (label ++ (60 :: 47 :: 97 :: 62 :: [])))) from rfl]
        simp [hrefPat, ciPref, show ciEq 104 101 = false from by decide]
      · rw [show List.drop 4 (32 :: 104 :: 114 :: 101 :: 102 :: 61 :: 34 ::
            (url ++ (34 :: 62 :: (label ++ (60 :: 47 :: 97 :: 62 :: []))))) =
            102 :: 61 :: 34 ::
              (url ++ (34 :: 62 :: (label ++ (60 :: 47 :: 97 :: 62 :: [])))) from rfl]
        simp [hrefPat, ciPref, show ciEq 104 102 = false from by decide]
      · rw [show List.drop 5 (32 :: 104 :: 114 :: 101 :: 102 :: 61 :: 34 ::
            (url ++ (34 :: 62 :: (label ++ (60 :: 47 :: 97 :: 62 :: []))))) =
            61 :: 34 :: (url ++ (34 :: 62 :: (label ++ (60 :: 47 :: 97 :: 62 :: [])))) from rfl]
        simp [hrefPat, ciPref, show ciEq 104 61 = false from by decide]
      · rw [show List.drop 6 (32 :: 104 :: 114 :: 101 :: 102 :: 61 :: 34 ::
            (url ++ (34 :: 62 :: (label ++ (60 :: 47 :: 97 :: 62 :: []))))) =
            34 :: (url ++ (34 :: 62 :: (label ++ (60 :: 47 :: 97 :: 62 :: [])))) from rfl]
        simp [hrefPat, ciPref, show ciEq 104 34 = false from by decide]
      · rw [show List.drop (m + 7) (32 :: 104 :: 114 :: 101 :: 102 :: 61 :: 34 ::
            (url ++ (34 :: 62 :: (label ++ (60 :: 47 :: 97 :: 62 :: []))))) =
            List.drop m (url ++ (34 :: 62 :: (label ++ (60 :: 47 :: 97 :: 62 :: []))))
            from rfl]
        by_cases hm : m ≤ url.length
        · rw [List.drop_append_of_le_length hm]
          exact href_fail (url.drop m) _
            (fun h => h61url (List.mem_of_mem_drop h))
            (fun h => h34url (List.mem_of_mem_drop h))
        · have hm2 : m = url.length + 1 := by
            simp only [List.length_cons] at hJ
            omega
          subst hm2
          rw [show url.length + 1 = url.length + 1 from rfl, List.drop_append]
          rw [show List.drop 1 ((34 :: 62 :: (label ++ (60 :: 47 :: 97 :: 62 :: []))) : JStr) =
              62 :: (label ++ (60 :: 47 :: 97 :: 62 :: [])) from rfl]
          simp [hrefPat, ciPref, show ciEq 104 62 = false from by decide]
    simp [anchorAt, hci]
  have hrun : ((32 :: 104 :: 114 :: 101 :: 102 :: 61 :: 34 ::
      (url ++ (34 :: 62 :: (label ++ (60 :: 47 :: 97 :: 62 :: []))))) : JStr).takeWhile
      (fun c => c != 62) =
      32 :: 104 :: 114 :: 101 :: 102 :: 61 :: 34 :: (url ++ [34]) := by
    simp [List.takeWhile_cons, List.takeWhile_append_of_pos h62url]
  have hcore : aCore (97 :: 32 :: 104 :: 114 :: 101 :: 102 :: 61 :: 34 ::
      (url ++ (34 :: 62 :: (label ++ (60 :: 47 :: 97 :: 62 :: []))))) =
      some (linkStartSeq ++ url ++ [124] ++ label ++ linkEndSeq,
        url.length + label.length + 14) := by
    simp only [aCore, show ciEq 97 97 = true from by decide, if_true,
      show jsWs 32 = true from by decide]
    rw [hrun]
    rw [show ((32 :: 104 :: 114 :: 101 :: 102 :: 61 :: 34 :: (url ++ [34])) : JStr).length =
        url.length + 8 from by simp <;> omega]
    rw [anchorTry_desc _ (url.length + 8) hnone (by omega)]
    exact anchorAt_one url label hu hl
  have hfin := headGuard_core_some 60 aCore _ _ _ hcore
  rw [show matchAnchor (60 :: 97 :: 32 :: 104 :: 114 :: 101 :: 102 :: 61 :: 34 ::
      (url ++ (34 :: 62 :: (label ++ (60 :: 47 :: 97 :: 62 :: []))))) =
      headGuard 60 aCore (60 :: 97 :: 32 :: 104 :: 114 :: 101 :: 102 :: 61 :: 34 ::
      (url ++ (34 :: 62 :: (label ++ (60 :: 47 :: 97 :: 62 :: []))))) from rfl, hfin]

theorem not_mem_ashape (x : Nat) (url label : JStr)
    (h97 : x ≠ 97) (h32 : x ≠ 32) (h104 : x ≠ 104) (h114 : x ≠ 114) (h101 : x ≠ 101)
    (h102 : x ≠ 102) (h61 : x ≠ 61) (h34 : x ≠ 34) (h62 : x ≠ 62)
    (hxu : x ∉ url) (hxl : x ∉ label) :
    x ∉ (97 : Nat) :: 32 :: 104 :: 114 :: 101 :: 102 :: 61 :: 34 ::
      (url ++ (34 :: 62 :: label)) := by
  intro h
  rcases List.mem_cons.mp h with h | h
  · exact h97 h
  rcases List.mem_cons.mp h with h | h
  · exact h32 h
  rcases List.mem_cons.mp h with h | h
  · exact h104 h
  rcases List.mem_cons.mp h with h | h
  · exact h114 h
  rcases List.mem_cons.mp h with h | h
  · exact h101 h
  rcases List.mem_cons.mp h with h | h
  · exact h102 h
  rcases List.mem_cons.mp h with h | h
  · exact h61 h
  rcases List.mem_cons.mp h with h | h
  · exact h34 h
  rcases List.mem_append.mp h with h | h
  · exact hxu h
  rcases List.mem_cons.mp h with h | h
  · exact h34 h
  rcases List.mem_cons.mp h with h | h
  · exact h62 h
  · exact hxl h

/-- A stage whose matcher only fires on `<` leaves the anchor-shaped input
unchanged when it matches at neither of its two `<` positions. -/
theorem scan_two60_id (m : Matcher) (ht : HeadTrig m 60) (a b : JStr)
    (h60a : 60 ∉ a) (h60b : 60 ∉ b)
    (h1 : m (60 :: (a ++ (60 :: b))) = none)
    (h2 : m (60 :: b) = none) :
    replaceScan m (60 :: (a ++ (60 :: b))) = 60 :: (a ++ (60 :: b)) := by
  rw [replaceScan_cons_none m _ _ h1, scan_skip m 60 ht a (60 :: b) h60a,
      replaceScan_cons_none m _ _ h2, scan_id m 60 ht b h60b]

/-- The restore-start stage on the post-anchor string: the leading
sentinel becomes `<`; the trailing `\x00LINK_END` is not a `LINK_START`
occurrence and survives. -/
theorem scan_restore_start (url label : JStr) (h0url : 0 ∉ url) (h0label : 0 ∉ label) :
    replaceScan (matchLit linkStartSeq [60])
      (0 :: ((76 :: 73 :: 78 :: 75 :: 95 :: 83 :: 84 :: 65 :: 82 :: 84 :: []) ++
        (url ++ (124 :: (label ++
          (0 :: 76 :: 73 :: 78 :: 75 :: 95 :: 69 :: 78 :: 68 :: [])))))) =
      60 :: (url ++ (124 :: (label ++
        (0 :: 76 :: 73 :: 78 :: 75 :: 95 :: 69 :: 78 :: 68 :: [])))) := by
  have h1 : litPref linkStartSeq
      (0 :: ((76 :: 73 :: 78 :: 75 :: 95 :: 83 :: 84 :: 65 :: 82 :: 84 :: []) ++
        (url ++ (124 :: (label ++
          (0 :: 76 :: 73 :: 78 :: 75 :: 95 :: 69 :: 78 :: 68 :: [])))))) =
      some (url ++ (124 :: (label ++
        (0 :: 76 :: 73 :: 78 :: 75 :: 95 :: 69 :: 78 :: 68 :: [])))) :=
    litPref_append linkStartSeq _
  have hm : matchLit linkStartSeq [60]
      (0 :: ((76 :: 73 :: 78 :: 75 :: 95 :: 83 :: 84 :: 65 :: 82 :: 84 :: []) ++
        (url ++ (124 :: (label ++
          (0 :: 76 :: 73 :: 78 :: 75 :: 95 :: 69 :: 78 :: 68 :: [])))))) =
      some ([60], 11) := by
    simp only [matchLit, h1]
    rfl
  rw [replaceScan_cons_some _ _ _ _ _ hm]
  rw [show List.drop (11 - 1)
      ((76 :: 73 :: 78 :: 75 :: 95 :: 83 :: 84 :: 65 :: 82 :: 84 :: []) ++
        (url ++ (124 :: (label ++
          (0 :: 76 :: 73 :: 78 :: 75 :: 95 :: 69 :: 78 :: 68 :: []))))) =
      url ++ (124 :: (label ++
        (0 :: 76 :: 73 :: 78 :: 75 :: 95 :: 69 :: 78 :: 68 :: []))) from rfl]
  rw [scan_skip _ 0 matchLinkStart_trig url _ h0url]
  rw [replaceScan_cons_none _ _ _ (matchLinkStart_trig 124 _ (by decide))]
  rw [scan_skip _ 0 matchLinkStart_trig label _ h0label]
  rw [show replaceScan (matchLit linkStartSeq [60])
      ((0 :: 76 :: 73 :: 78 :: 75 :: 95 :: 69 :: 78 :: 68 :: []) : JStr) =
      0 :: 76 :: 73 :: 78 :: 75 :: 95 :: 69 :: 78 :: 68 :: [] from by decide]
  rfl

/-- The restore-end stage: the trailing sentinel becomes `>`. -/
theorem scan_restore_end (url label : JStr) (h0url : 0 ∉ url) (h0label : 0 ∉ label) :
    replaceScan (matchLit linkEndSeq [62])
      (60 :: (url ++ (124 :: (label ++
        (0 :: 76 :: 73 :: 78 :: 75 :: 95 :: 69 :: 78 :: 68 :: []))))) =
      60 :: (url ++ (124 :: (label ++ [62]))) := by
  rw [replaceScan_cons_none _ _ _ (matchLinkEnd_trig 60 _ (by decide))]
  rw [scan_skip _ 0 matchLinkEnd_trig url _ h0url]
  rw [replaceScan_cons_none _ _ _ (matchLinkEnd_trig 124 _ (by decide))]
  rw [scan_skip _ 0 matchLinkEnd_trig label _ h0label]
  rw [show replaceScan (matchLit linkEndSeq [62])
      ((0 :: 76 :: 73 :: 78 :: 75 :: 95 :: 69 :: 78 :: 68 :: []) : JStr) =
      62 :: [] from by decide]

theorem not_mem_final (x : Nat) (url label : JStr) (hx60 : x ≠ 60) (hx124 : x ≠ 124)
    (hx62 : x ≠ 62) (hxu : x ∉ url) (hxl : x ∉ label) :
    x ∉ (60 : Nat) :: (url ++ (124 :: (label ++ [62]))) := by
  intro h
  rcases List.mem_cons.mp h with h | h
  · exact hx60 h
  rcases List.mem_append.mp h with h | h
  · exact hxu h
  rcases List.mem_cons.mp h with h | h
  · exact hx124 h
  rcases List.mem_append.mp h with h | h
  · exact hxl h
  rcases List.mem_cons.mp h with h | h
  · exact hx62 h
  · exact absurd h (List.not_mem_nil _)

theorem noEdgeWs_anchor (url label : JStr) :
    noEdgeWs (60 :: (url ++ (124 :: (label ++ [62])))) = true := by
  unfold noEdgeWs
  rw [Bool.and_eq_true]
  constructor
  · simpa [noWsHead] using (show jsWs 60 = false from by decide)
  · rw [show ((60 : Nat) :: (url ++ (124 :: (label ++ [62])))).reverse =
        62 :: ((label.reverse ++ (124 :: url.reverse)) ++ [60]) from by simp]
    simpa [noWsHead] using (show jsWs 62 = false from by decide)

/-- `<a href="URL">LABEL</a>` converts to `<URL|LABEL>` for any clean URL
and label. -/
theorem convert_anchor (url label : JStr)
    (hu : url.all urlOk = true) (hl : label.all contentOk = true) :
    htmlToMrkdwn ([60, 97, 32, 104, 114, 101, 102, 61, 34] ++ url ++ [34, 62] ++
        label ++ [60, 47, 97, 62]) = [60] ++ url ++ [124] ++ label ++ [62] := by
  have h60url : 60 ∉ url := urlOk_mem_ne url hu 60 (by decide)
  have h0url : 0 ∉ url := urlOk_mem_ne url hu 0 (by decide)
  have h38url : 38 ∉ url := urlOk_mem_ne url hu 38 (by decide)
  have h10url : 10 ∉ url := urlOk_mem_ne url hu 10 (by decide)
  have h60label : 60 ∉ label := contentOk_mem_ne label hl 60 (by decide)
  have h0label : 0 ∉ label := contentOk_mem_ne label hl 0 (by decide)
  have h38label : 38 ∉ label := contentOk_mem_ne label hl 38 (by decide)
  have h10label : 10 ∉ label := contentOk_mem_ne label hl 10 (by decide)
  have h60A : 60 ∉ (97 : Nat) :: 32 :: 104 :: 114 :: 101 :: 102 :: 61 :: 34 ::
      (url ++ (34 :: 62 :: label)) :=
    not_mem_ashape 60 url label (by decide) (by decide) (by decide) (by decide)
      (by decide) (by decide) (by decide) (by decide) (by decide) h60url h60label
  rw [show [60, 97, 32, 104, 114, 101, 102, 61, 34] ++ url ++ [34, 62] ++ label ++
      [60, 47, 97, 62] =
      60 :: ((97 :: 32 :: 104 :: 114 :: 101 :: 102 :: 61 :: 34 ::
        (url ++ (34 :: 62 :: label))) ++ (60 :: (47 :: 97 :: 62 :: []))) by simp]
  simp only [htmlToMrkdwn]
  rw [if_neg (by simp)]
  rw [scan_two60_id matchBr matchBr_trig _ (47 :: 97 :: 62 :: []) h60A (by decide)
      (matchBr_core_none _ (brCore_ne1 97 _ (by decide)))
      (matchBr_core_none _ (brCore_ne1 47 _ (by decide)))]
  rw [scan_two60_id matchPPair matchPPair_trig _ (47 :: 97 :: 62 :: []) h60A (by decide)
      (matchPPair_core_none _ (ppCore_ne1 97 _ (by decide)))
      (matchPPair_core_none _ (ppCore_ne2 47 97 _ (by decide)))]
  rw [scan_two60_id matchPOpen matchPOpen_trig _ (47 :: 97 :: 62 :: []) h60A (by decide)
      (matchPOpen_core_none _ (pOpenCore_ne1 97 _ (by decide)))
      (matchPOpen_core_none _ (pOpenCore_ne1 47 _ (by decide)))]
  rw [scan_two60_id matchPClose matchPClose_trig _ (47 :: 97 :: 62 :: []) h60A (by decide)
      (matchPClose_core_none _ (pCloseCore_ne1 97 _ (by decide)))
      (matchPClose_core_none _ (pCloseCore_ne2 47 97 _ (by decide)))]
  rw [show ((97 :: 32 :: 104 :: 114 :: 101 :: 102 :: 61 :: 34 ::
      (url ++ (34 :: 62 :: label))) : JStr) ++ (60 :: (47 :: 97 :: 62 :: [])) =
      97 :: 32 :: 104 :: 114 :: 101 :: 102 :: 61 :: 34 ::
        (url ++ (34 :: 62 :: (label ++ (60 :: 47 :: 97 :: 62 :: [])))) from by simp]
  rw [replaceScan_cons_some matchAnchor 60 _ _ _ (matchAnchor_hit url label hu hl)]
  rw [show List.drop (url.length + label.length + 15 - 1)
      (97 :: 32 :: 104 :: 114 :: 101 :: 102 :: 61 :: 34 ::
        (url ++ (34 :: 62 :: (label ++ (60 :: 47 :: 97 :: 62 :: []))))) = ([] : JStr) from
    List.drop_eq_nil_of_le (by simp <;> omega)]
  rw [replaceScan_nil, List.append_nil]
  rw [show linkStartSeq ++ url ++ [124] ++ label ++ linkEndSeq =
      0 :: ((76 :: 73 :: 78 :: 75 :: 95 :: 83 :: 84 :: 65 :: 82 :: 84 :: []) ++
        (url ++ (124 :: (label ++
          (0 :: 76 :: 73 :: 78 :: 75 :: 95 :: 69 :: 78 :: 68 :: []))))) from by
    rw [show linkStartSeq =
          (0 :: 76 :: 73 :: 78 :: 75 :: 95 :: 83 :: 84 :: 65 :: 82 :: 84 :: [] : JStr)
          from rfl,
        show linkEndSeq =
          (0 :: 76 :: 73 :: 78 :: 75 :: 95 :: 69 :: 78 :: 68 :: [] : JStr) from rfl]
    simp]
  have h60N : 60 ∉ (0 : Nat) ::
      ((76 :: 73 :: 78 :: 75 :: 95 :: 83 :: 84 :: 65 :: 82 :: 84 :: []) ++
        (url ++ (124 :: (label ++
          (0 :: 76 :: 73 :: 78 :: 75 :: 95 :: 69 :: 78 :: 68 :: []))))) := by
    intro h
    rcases List.mem_cons.mp h with h | h
    · exact absurd h (by decide)
    rcases List.mem_append.mp h with h | h
    · exact absurd h (by decide)
    rcases List.mem_append.mp h with h | h
    · exact h60url h
    rcases List.mem_cons.mp h with h | h
    · exact absurd h (by decide)
    rcases List.mem_append.mp h with h | h
    · exact h60label h
    · exact absurd h (by decide)
  rw [scan_id _ 60 matchBold_trig _ h60N, scan_id _ 60 matchItalic_trig _ h60N,
      scan_id _ 60 matchStrike_trig _ h60N, scan_id _ 60 matchLi_trig _ h60N,
      scan_id _ 60 matchUlOl_trig _ h60N, scan_id _ 60 matchH_trig _ h60N,
      scan_id _ 60 matchStrip_trig _ h60N]
  rw [scan_restore_start url label h0url h0label]
  rw [scan_restore_end url label h0url h0label]
  rw [decode_id _ (not_mem_final 38 url label (by decide) (by decide) (by decide)
      h38url h38label)]
  rw [collapse_id _ (hasTriple_of_no10 _ (not_mem_final 10 url label (by decide)
      (by decide) (by decide) h10url h10label))]
  rw [jsTrim_id _ (noEdgeWs_anchor url label)]
  simp

/-- C4: every anchor `<a href="URL" ...>LABEL</a>` converts to `<URL|LABEL>`
(proved in general for clean URLs/labels, and on concrete instances with
extra attributes before or after `href`); the label is captured
non-greedily to the nearest `</a>` (two-anchor instance); the produced
`<URL|LABEL>` survives the strip-all stage thanks to the sentinel
round-trip. -/
theorem C4_anchor_links :
    (∀ url label : JStr, url.all urlOk = true → label.all contentOk = true →
        htmlToMrkdwn ([60, 97, 32, 104, 114, 101, 102, 61, 34] ++ url ++ [34, 62] ++
          label ++ [60, 47, 97, 62]) = [60] ++ url ++ [124] ++ label ++ [62]) ∧
      htmlToMrkdwn (uc ("<a href=\"https://x.com\">L</a>")) = uc ("<https://x.com|L>") ∧
      htmlToMrkdwn (uc ("<a target=\"_blank\" href=\"https://x.com\">L</a>")) =
        uc ("<https://x.com|L>") ∧
      htmlToMrkdwn (uc ("<a href=\"https://x.com\" target=\"_blank\">L</a>")) =
        uc ("<https://x.com|L>") ∧
      htmlToMrkdwn (uc ("<a href=\"u\">A</a>x<a href=\"v\">B</a>")) =
        uc ("<u|A>x<v|B>") := by
  refine ⟨fun url label hu hl => convert_anchor url label hu hl,
    by decide, by decide, by decide, by decide⟩

theorem C4_anchor_links_witness :
    htmlToMrkdwn ([60, 97, 32, 104, 114, 101, 102, 61, 34] ++ [117] ++ [34, 62] ++
        [108] ++ [60, 47, 97, 62]) = [60] ++ [117] ++ [124] ++ [108] ++ [62] :=
  C4_anchor_links.1 [117] [108] (by decide) (by decide)
